import Mathlib

/-!
Verification of the calculator engine of this repository
(calculator/script.js). The engine is embedded shallowly:

* JS numbers are modelled as exact rationals together with an explicit
  not-a-number value (constructor JSNum.nan). Overflow of IEEE doubles to
  infinity and double rounding are not modelled; in this engine the only
  source of a non-finite value that the claims exercise is the explicit
  division-by-zero guard, which the source maps to NaN itself.
* JS strings are modelled as lists of characters; the helper chars turns a
  Lean string literal into that representation.
* The mutable global calculatorState becomes a CalculatorState value that
  every operation takes and returns; DOM rendering (updateDisplay) has no
  effect on the state and is omitted.
-/

namespace Calculator

/-- Character list of a string literal, the representation used for the JS
strings of the model. -/
def chars (s : String) : List Char := s.data

/-- A JS number: either not-a-number or a finite value, modelled as an exact
rational. -/
inductive JSNum where
  | nan : JSNum
  | num (q : ℚ) : JSNum
deriving DecidableEq, Repr

/-- Addition on JS numbers; NaN propagates. -/
def JSNum.add : JSNum → JSNum → JSNum
  | num a, num b => num (a + b)
  | _, _ => nan

/-- Subtraction on JS numbers; NaN propagates. -/
def JSNum.sub : JSNum → JSNum → JSNum
  | num a, num b => num (a - b)
  | _, _ => nan

/-- Multiplication on JS numbers; NaN propagates. -/
def JSNum.mul : JSNum → JSNum → JSNum
  | num a, num b => num (a * b)
  | _, _ => nan

/-- Division on JS numbers; NaN propagates and a zero divisor gives NaN. -/
def JSNum.div : JSNum → JSNum → JSNum
  | num a, num b => if b = 0 then nan else num (a / b)
  | _, _ => nan

/-- Model of Number.isFinite. -/
def JSNum.isFinite : JSNum → Bool
  | nan => false
  | num _ => true

/-- Model of performCalculation from the source: a switch on the operator
string, where the division case guards a zero divisor with NaN. -/
def performCalculation (a : JSNum) (operator : String) (b : JSNum) : JSNum :=
  if operator = "+" then JSNum.add a b
  else if operator = "-" then JSNum.sub a b
  else if operator = "*" then JSNum.mul a b
  else if operator = "/" then (if b = JSNum.num 0 then JSNum.nan else JSNum.div a b)
  else JSNum.nan

/-! Parsing of the current input, modelling the JS Number() conversion on the
strings this engine can produce: an optional sign, digits, an optional single
point with digits, and an optional lowercase exponent part as produced by the
JS number-to-string conversion. The empty string converts to 0, anything
malformed to NaN. -/

/-- Consume leading decimal digits, returning their value, their count and the
remaining characters. -/
def takeDigits : List Char → Nat → Nat → Nat × Nat × List Char
  | [], acc, n => (acc, n, [])
  | c :: cs, acc, n =>
      if c.isDigit then takeDigits cs (10 * acc + (c.toNat - 48)) (n + 1)
      else (acc, n, c :: cs)

/-- Parse the digits of an exponent part and apply it to the mantissa. -/
def parseExpDigits (m : ℚ) (neg : Bool) (cs : List Char) : Option ℚ :=
  match takeDigits cs 0 0 with
  | (e, ecount, rest) =>
      if ecount = 0 ∨ rest ≠ [] then none
      else some (if neg then m / 10 ^ e else m * 10 ^ e)

/-- Parse an exponent part after the letter e, with optional sign. -/
def parseExpPart (m : ℚ) : List Char → Option ℚ
  | '+' :: cs => parseExpDigits m false cs
  | '-' :: cs => parseExpDigits m true cs
  | cs => parseExpDigits m false cs

/-- Parse an unsigned decimal literal, with optional fractional part and
optional exponent part. -/
def parseUnsigned (cs : List Char) : Option ℚ :=
  match takeDigits cs 0 0 with
  | (ip, icount, rest) =>
      match rest with
      | [] => if icount = 0 then none else some (ip : ℚ)
      | '.' :: rest2 =>
          match takeDigits rest2 0 0 with
          | (fp, fcount, rest3) =>
              if icount = 0 ∧ fcount = 0 then none
              else
                match rest3 with
                | [] => some ((ip : ℚ) + (fp : ℚ) / 10 ^ fcount)
                | 'e' :: rest4 => parseExpPart ((ip : ℚ) + (fp : ℚ) / 10 ^ fcount) rest4
                | _ => none
      | 'e' :: rest4 => if icount = 0 then none else parseExpPart (ip : ℚ) rest4
      | _ => none

/-- Model of the JS Number() conversion on the string shapes reachable in the
engine. -/
def jsNumber (s : List Char) : JSNum :=
  match s with
  | [] => JSNum.num 0
  | '-' :: cs =>
      match parseUnsigned cs with
      | some q => JSNum.num (-q)
      | none => JSNum.nan
  | '+' :: cs =>
      match parseUnsigned cs with
      | some q => JSNum.num q
      | none => JSNum.nan
  | cs =>
      match parseUnsigned cs with
      | some q => JSNum.num q
      | none => JSNum.nan

/-! Number formatting: the source computes
Math.round((number + Number.EPSILON) * 1e12) / 1e12 and converts the result
with String(), whose behaviour is the ECMAScript number-to-string algorithm.
On the exact rationals of the model the rounded value is an integer divided
by 10 to the 12th, and the conversion is implemented on that representation,
with the ECMAScript switch to exponential notation when the decimal exponent
leaves the interval from minus 6 exclusive to 21 inclusive. -/

/-- Model of Math.round on exact rationals: the closest integer, ties toward
positive infinity. -/
def jsMathRound (q : ℚ) : ℤ := ⌊q + 1 / 2⌋

/-- Number.EPSILON as an exact rational. -/
def jsEpsilon : ℚ := 1 / 2 ^ 52

/-- Character of a decimal digit. -/
def digitChar (d : Nat) : Char := Char.ofNat (48 + d % 10)

/-- Little-endian decimal digits of a natural number, fuelled. -/
def natDigitsAux : Nat → Nat → List Nat
  | 0, _ => []
  | fuel + 1, m => if m = 0 then [] else m % 10 :: natDigitsAux fuel (m / 10)

/-- Little-endian decimal digits of a natural number; the empty list for 0. -/
def natDigits (m : Nat) : List Nat := natDigitsAux m m

/-- Big-endian digit characters of a natural number. -/
def natChars (m : Nat) : List Char := ((natDigits m).map digitChar).reverse

/-- Positional (non-exponential) ECMAScript digit layout: s lists the
significant digit characters, most significant first, and nPos is the
position of the decimal point relative to the start of s. -/
def ecmaPositional (s : List Char) (nPos : ℤ) : List Char :=
  if (s.length : ℤ) ≤ nPos then s ++ List.replicate (nPos - s.length).toNat '0'
  else if 0 < nPos then s.take nPos.toNat ++ '.' :: s.drop nPos.toNat
  else '0' :: '.' :: (List.replicate (-nPos).toNat '0' ++ s)

/-- Exponent marker of the exponential ECMAScript layout, with sign and
digits of the exponent. -/
def ecmaExponentialTail (nPos : ℤ) : List Char :=
  'e' :: (if nPos - 1 < 0 then '-' :: natChars (-(nPos - 1)).toNat
          else '+' :: natChars (nPos - 1).toNat)

/-- Exponential ECMAScript digit layout: the mantissa keeps one digit before
the point, and the exponent is the point position minus one. -/
def ecmaExponential (s : List Char) (nPos : ℤ) : List Char :=
  match s with
  | c :: c2 :: rest => c :: '.' :: c2 :: (rest ++ ecmaExponentialTail nPos)
  | other => other ++ ecmaExponentialTail nPos

/-- Significant digit characters of a natural number, most significant first,
trailing zeros removed. -/
def sigDigitsChars (m : Nat) : List Char :=
  (((natDigits m).dropWhile (fun d => d == 0)).map digitChar).reverse

/-- Count of trailing decimal zeros of a natural number. -/
def trailingZeros (m : Nat) : Nat :=
  ((natDigits m).takeWhile (fun d => d == 0)).length

/-- Decimal point position of the value m divided by 10 to the scale,
relative to the start of the significant digits. -/
def ecmaPointPos (m : Nat) (scale : Nat) : ℤ :=
  ((sigDigitsChars m).length : ℤ) + trailingZeros m - scale

/-- Unsigned ECMAScript digit layout of the value m divided by 10 to the
scale, switching to exponential notation when the point position leaves the
interval from minus 6 exclusive to 21 inclusive. -/
def ecmaBody (m : Nat) (scale : Nat) : List Char :=
  if -6 < ecmaPointPos m scale ∧ ecmaPointPos m scale ≤ 21 then
    ecmaPositional (sigDigitsChars m) (ecmaPointPos m scale)
  else ecmaExponential (sigDigitsChars m) (ecmaPointPos m scale)

/-- ECMAScript number-to-string conversion for the exact value n divided by
10 to the scale, the shape produced by the rounding step of
formatDisplayNumber. -/
def ecmaChars (n : ℤ) (scale : Nat) : List Char :=
  if n = 0 then ['0']
  else if n < 0 then '-' :: ecmaBody n.natAbs scale
  else ecmaBody n.natAbs scale

/-- Model of formatDisplayNumber: NaN formats as Error, a finite value is
rounded to 12 decimal places after adding Number.EPSILON and printed with the
ECMAScript conversion. -/
def formatDisplayNumber (number : JSNum) : List Char :=
  match number with
  | JSNum.nan => chars "Error"
  | JSNum.num q => ecmaChars (jsMathRound ((q + jsEpsilon) * 10 ^ 12)) 12

/-- The calculator state record of the source. -/
structure CalculatorState where
  firstOperand : Option JSNum
  secondOperand : Option JSNum
  operator : Option String
  currentInput : List Char
  hasCalculated : Bool
  isError : Bool
deriving DecidableEq, Repr

/-- The state installed at startup and by clearCalculator. -/
def initialState : CalculatorState :=
  ⟨none, none, none, chars "0", false, false⟩

/-- Model of checkErrorState. -/
def checkErrorState (s : CalculatorState) : Bool :=
  s.isError || s.currentInput == chars "Error"

/-- Model of getCurrentInputAsNumber, with the special cases for a bare point
and a bare minus-point. -/
def getCurrentInputAsNumber (s : CalculatorState) : JSNum :=
  if s.currentInput = chars "." ∨ s.currentInput = chars "-." then JSNum.num 0
  else jsNumber s.currentInput

/-- Model of resetStateForNewInput. -/
def resetStateForNewInput (s : CalculatorState) : CalculatorState :=
  if checkErrorState s || s.hasCalculated then
    { s with firstOperand := none, secondOperand := none, operator := none,
             currentInput := chars "0", hasCalculated := false, isError := false }
  else s

/-- Model of appendDigit; the argument is the digit string of the pressed
key. -/
def appendDigit (digit : List Char) (s0 : CalculatorState) : CalculatorState :=
  let s := resetStateForNewInput s0
  if s.currentInput = chars "0" then { s with currentInput := digit }
  else if s.currentInput = chars "-0" then { s with currentInput := '-' :: digit }
  else { s with currentInput := s.currentInput ++ digit }

/-- Model of addDecimalPoint. -/
def addDecimalPoint (s0 : CalculatorState) : CalculatorState :=
  let s := resetStateForNewInput s0
  if s.currentInput.contains '.' then s
  else { s with currentInput := s.currentInput ++ ['.'] }

/-- Test used by toggleSign for a leading minus sign. -/
def startsWithDash : List Char → Bool
  | [] => false
  | a :: _ => a == '-'

/-- Model of toggleSign. -/
def toggleSign (s : CalculatorState) : CalculatorState :=
  if checkErrorState s then s
  else if s.currentInput = chars "0" ∨ s.currentInput = chars "0." then s
  else if startsWithDash s.currentInput then { s with currentInput := s.currentInput.drop 1 }
  else { s with currentInput := '-' :: s.currentInput }

/-- Model of removeLastCharacter. -/
def removeLastCharacter (s : CalculatorState) : CalculatorState :=
  if checkErrorState s then s
  else if s.hasCalculated then s
  else if s.currentInput.length ≤ 1 ∨
          (s.currentInput.length = 2 ∧ startsWithDash s.currentInput) then
    { s with currentInput := chars "0" }
  else
    let trimmed := s.currentInput.dropLast
    if trimmed = chars "-" then { s with currentInput := chars "0" }
    else { s with currentInput := trimmed }

/-- Model of clearCalculator. -/
def clearCalculator (_ : CalculatorState) : CalculatorState := initialState

/-- Model of selectOperator. -/
def selectOperator (operator : String) (s0 : CalculatorState) : CalculatorState :=
  if checkErrorState s0 then s0
  else
    let inputNumber := getCurrentInputAsNumber s0
    let s := if s0.hasCalculated
             then { s0 with hasCalculated := false, secondOperand := none }
             else s0
    match s.firstOperand with
    | none =>
        { s with firstOperand := some inputNumber, operator := some operator,
                 currentInput := chars "0" }
    | some a =>
        match s.operator with
        | some pendingOp =>
            if s.currentInput ≠ chars "0" then
              let result := performCalculation a pendingOp inputNumber
              if result.isFinite then
                { s with firstOperand := some result, secondOperand := none,
                         operator := some operator, currentInput := chars "0" }
              else
                { s with currentInput := chars "Error", isError := true,
                         firstOperand := none, secondOperand := none, operator := none }
            else { s with operator := some operator }
        | none => { s with operator := some operator }

/-- Model of calculateResult. -/
def calculateResult (s : CalculatorState) : CalculatorState :=
  if checkErrorState s then s
  else
    match s.operator, s.firstOperand with
    | some pendingOp, some a =>
        let inputNumber := getCurrentInputAsNumber s
        let secondOperand := if s.hasCalculated
                             then s.secondOperand.getD inputNumber
                             else inputNumber
        let result := performCalculation a pendingOp secondOperand
        if result.isFinite then
          { s with secondOperand := some secondOperand, firstOperand := some result,
                   currentInput := formatDisplayNumber result, hasCalculated := true }
        else
          { s with currentInput := chars "Error", isError := true,
                   firstOperand := none, secondOperand := none, operator := none }
    | _, _ => s

/-- The four operator keys the input adapter dispatches. -/
inductive Op where
  | addOp | subOp | mulOp | divOp
deriving DecidableEq, Repr

/-- Key string of an operator. -/
def Op.toKey : Op → String
  | addOp => "+"
  | subOp => "-"
  | mulOp => "*"
  | divOp => "/"

/-- The discrete user commands of the input adapter. -/
inductive Cmd where
  | digit (d : Fin 10)
  | dot
  | sign
  | backspace
  | clear
  | binop (o : Op)
  | equals
deriving DecidableEq, Repr

/-- Digit string passed to appendDigit for a digit key. -/
def digitString (d : Fin 10) : List Char := [digitChar d.val]

/-- One step of the engine on a user command. -/
def step (c : Cmd) (s : CalculatorState) : CalculatorState :=
  match c with
  | Cmd.digit d => appendDigit (digitString d) s
  | Cmd.dot => addDecimalPoint s
  | Cmd.sign => toggleSign s
  | Cmd.backspace => removeLastCharacter s
  | Cmd.clear => clearCalculator s
  | Cmd.binop o => selectOperator o.toKey s
  | Cmd.equals => calculateResult s

/-- The state after a sequence of commands from startup. -/
def run (cmds : List Cmd) : CalculatorState :=
  cmds.foldl (fun s c => step c s) initialState

/-! Invariant infrastructure: the characters a non-error current input can
contain, the exclusion of a double leading minus, and the well-formedness
predicate Good preserved by every command. -/

/-- Characters that can occur in a non-error current input: digits, the minus
sign, the decimal point, and the two extra characters of exponential
notation. -/
def goodChar (c : Char) : Bool :=
  c.isDigit || c == '-' || c == '.' || c == 'e' || c == '+'

/-- A current input never carries two leading minus signs. -/
def noDD : List Char → Bool
  | a :: b :: _ => !((a == '-') && (b == '-'))
  | _ => true

/-- Well-formedness of a non-error current input string. -/
def GoodStr (l : List Char) : Prop :=
  l ≠ [] ∧ l ≠ ['-'] ∧ (∀ c ∈ l, goodChar c = true) ∧ noDD l = true

/-- Well-formedness of a calculator state: either the error shape, with the
flag and the Error text together, or a non-error state with a well-formed
input string. -/
def Good (s : CalculatorState) : Prop :=
  (s.isError = true ∧ s.currentInput = chars "Error") ∨
  (s.isError = false ∧ GoodStr s.currentInput)

theorem noDD_cons_cons (a b : Char) (t : List Char) :
    noDD (a :: b :: t) = !((a == '-') && (b == '-')) := rfl

theorem noDD_of_head_ne (a : Char) (t : List Char) (h : a ≠ '-') :
    noDD (a :: t) = true := by
  cases t with
  | nil => rfl
  | cons b t2 => simp [noDD_cons_cons, h]

theorem digit_isDigit_aux : ∀ r < 10, (Char.ofNat (48 + r)).isDigit = true := by decide

theorem digitChar_isDigit (d : Nat) : (digitChar d).isDigit = true :=
  digit_isDigit_aux (d % 10) (Nat.mod_lt d (by norm_num))

theorem isDigit_ne_dash {c : Char} (h : c.isDigit = true) : c ≠ '-' := by
  intro he; subst he; simp at h

theorem goodChar_of_isDigit {c : Char} (h : c.isDigit = true) : goodChar c = true := by
  simp [goodChar, h]

theorem goodStr_ne_error {l : List Char} (h : GoodStr l) : l ≠ chars "Error" := by
  intro he
  have hE : 'E' ∈ l := by rw [he]; simp [chars]
  have := h.2.2.1 'E' hE
  simp [goodChar] at this

/-! Facts about the fuelled decimal digit list. -/

theorem natDigitsAux_zero (fuel : Nat) : natDigitsAux fuel 0 = [] := by
  cases fuel <;> simp [natDigitsAux]

theorem natDigitsAux_mem_lt (fuel : Nat) :
    ∀ m d, d ∈ natDigitsAux fuel m → d < 10 := by
  induction fuel with
  | zero => intro m d h; simp [natDigitsAux] at h
  | succ fuel ih =>
      intro m d h
      by_cases hm : m = 0
      · simp [natDigitsAux, hm] at h
      · simp [natDigitsAux, hm] at h
        rcases h with h | h
        · subst h; exact Nat.mod_lt m (by norm_num)
        · exact ih (m / 10) d h

theorem natDigits_mem_lt (m d : Nat) (h : d ∈ natDigits m) : d < 10 :=
  natDigitsAux_mem_lt m m d h

theorem natDigitsAux_concat (fuel : Nat) :
    ∀ m, m ≠ 0 → m ≤ fuel →
      ∃ l d, natDigitsAux fuel m = l ++ [d] ∧ d ≠ 0 := by
  induction fuel with
  | zero => intro m hm hle; omega
  | succ fuel ih =>
      intro m hm hle
      rw [natDigitsAux, if_neg hm]
      by_cases hq : m / 10 = 0
      · refine ⟨[], m % 10, ?_, ?_⟩
        · rw [hq, natDigitsAux_zero]; simp
        · have h10 : m < 10 := by omega
          rw [Nat.mod_eq_of_lt h10]; exact hm
      · have hle2 : m / 10 ≤ fuel := by omega
        obtain ⟨l, d, hl, hd⟩ := ih (m / 10) hq hle2
        exact ⟨m % 10 :: l, d, by rw [hl]; simp, hd⟩

theorem natDigits_concat (m : Nat) (hm : m ≠ 0) :
    ∃ l d, natDigits m = l ++ [d] ∧ d ≠ 0 :=
  natDigitsAux_concat m m hm le_rfl

/-! Shape of the formatted output: it is nonempty, an optional minus sign is
followed by a digit, and every character is one a non-error input may
contain. -/

theorem natChars_isDigit (m : Nat) : ∀ c ∈ natChars m, c.isDigit = true := by
  intro c hc
  rw [natChars, List.mem_reverse, List.mem_map] at hc
  obtain ⟨d, _, hd⟩ := hc
  rw [← hd]; exact digitChar_isDigit d

theorem sigDigitsChars_isDigit (m : Nat) : ∀ c ∈ sigDigitsChars m, c.isDigit = true := by
  intro c hc
  rw [sigDigitsChars, List.mem_reverse, List.mem_map] at hc
  obtain ⟨d, _, hd⟩ := hc
  rw [← hd]; exact digitChar_isDigit d

theorem sigDigitsChars_ne_nil (m : Nat) (hm : m ≠ 0) : sigDigitsChars m ≠ [] := by
  rw [sigDigitsChars]
  intro h
  rw [List.reverse_eq_nil_iff, List.map_eq_nil_iff, List.dropWhile_eq_nil_iff] at h
  obtain ⟨l, d, hcat, hd⟩ := natDigits_concat m hm
  have hmem : d ∈ natDigits m := by rw [hcat]; simp
  have := h d hmem
  simp at this
  exact hd this

theorem ecmaPositional_spec (s : List Char) (nPos : ℤ) (hs : s ≠ [])
    (hdig : ∀ c ∈ s, c.isDigit = true) :
    (∃ c t, ecmaPositional s nPos = c :: t ∧ c.isDigit = true) ∧
      ∀ x ∈ ecmaPositional s nPos, goodChar x = true := by
  obtain ⟨c, t, rfl⟩ := List.exists_cons_of_ne_nil hs
  have hc : c.isDigit = true := hdig c (by simp)
  rw [ecmaPositional]
  split
  · refine ⟨⟨c, t ++ List.replicate (nPos - (c :: t).length).toNat '0', by simp, hc⟩, ?_⟩
    intro x hx
    rcases List.mem_append.mp hx with hx | hx
    · exact goodChar_of_isDigit (hdig x hx)
    · rw [List.eq_of_mem_replicate hx]; decide
  · split
    · rename_i hlen hpos
      obtain ⟨k, hk⟩ := Nat.exists_eq_succ_of_ne_zero (n := nPos.toNat) (by omega)
      rw [hk, List.take_succ_cons, List.drop_succ_cons]
      refine ⟨⟨c, List.take k t ++ '.' :: List.drop k t, by simp, hc⟩, ?_⟩
      intro x hx
      simp only [List.cons_append, List.mem_cons, List.mem_append] at hx
      rcases hx with rfl | hx | hx
      · exact goodChar_of_isDigit hc
      · exact goodChar_of_isDigit
          (hdig x (List.mem_cons_of_mem c ((List.take_sublist k t).mem hx)))
      · rcases hx with rfl | hx
        · decide
        · exact goodChar_of_isDigit
            (hdig x (List.mem_cons_of_mem c ((List.drop_sublist k t).mem hx)))
    · refine ⟨⟨'0', '.' :: (List.replicate (-nPos).toNat '0' ++ c :: t), rfl, by decide⟩, ?_⟩
      intro x hx
      simp only [List.mem_cons, List.mem_append] at hx
      rcases hx with rfl | rfl | hx | hx
      · decide
      · decide
      · rw [List.eq_of_mem_replicate hx]; decide
      · rcases hx with rfl | hx
        · exact goodChar_of_isDigit hc
        · exact goodChar_of_isDigit (hdig x (List.mem_cons_of_mem c hx))

theorem ecmaExponential_spec (s : List Char) (nPos : ℤ) (hs : s ≠ [])
    (hdig : ∀ c ∈ s, c.isDigit = true) :
    (∃ c t, ecmaExponential s nPos = c :: t ∧ c.isDigit = true) ∧
      ∀ x ∈ ecmaExponential s nPos, goodChar x = true := by
  obtain ⟨c, t, rfl⟩ := List.exists_cons_of_ne_nil hs
  have hc : c.isDigit = true := hdig c (by simp)
  have hgoodtail : ∀ x ∈ ecmaExponentialTail nPos, goodChar x = true := by
    intro x hx
    rw [ecmaExponentialTail] at hx
    rcases List.mem_cons.mp hx with rfl | hx
    · decide
    · split at hx <;> rcases List.mem_cons.mp hx with rfl | hx
      · decide
      · exact goodChar_of_isDigit (natChars_isDigit _ x hx)
      · decide
      · exact goodChar_of_isDigit (natChars_isDigit _ x hx)
  cases t with
  | nil =>
      have hE : ecmaExponential [c] nPos = c :: ecmaExponentialTail nPos := rfl
      refine ⟨⟨c, ecmaExponentialTail nPos, hE, hc⟩, ?_⟩
      rw [hE]
      intro x hx
      rcases List.mem_cons.mp hx with rfl | hx
      · exact goodChar_of_isDigit hc
      · exact hgoodtail x hx
  | cons c2 t2 =>
      have hE : ecmaExponential (c :: c2 :: t2) nPos
          = c :: '.' :: c2 :: (t2 ++ ecmaExponentialTail nPos) := rfl
      refine ⟨⟨c, '.' :: c2 :: (t2 ++ ecmaExponentialTail nPos), hE, hc⟩, ?_⟩
      rw [hE]
      intro x hx
      simp only [List.mem_cons, List.mem_append] at hx
      rcases hx with rfl | rfl | rfl | hx | hx
      · exact goodChar_of_isDigit hc
      · decide
      · exact goodChar_of_isDigit (hdig x (by simp))
      · exact goodChar_of_isDigit (hdig x (by simp [hx]))
      · exact hgoodtail x hx

theorem ecmaBody_spec (m : Nat) (scale : Nat) (hm : m ≠ 0) :
    (∃ c t, ecmaBody m scale = c :: t ∧ c.isDigit = true) ∧
      ∀ x ∈ ecmaBody m scale, goodChar x = true := by
  rw [ecmaBody]
  split
  · exact ecmaPositional_spec _ _ (sigDigitsChars_ne_nil m hm) (sigDigitsChars_isDigit m)
  · exact ecmaExponential_spec _ _ (sigDigitsChars_ne_nil m hm) (sigDigitsChars_isDigit m)

theorem ecmaChars_goodStr (n : ℤ) (scale : Nat) : GoodStr (ecmaChars n scale) := by
  rw [ecmaChars]
  split
  · exact ⟨by decide, by decide, by decide, by decide⟩
  · rename_i hn
    have hm : n.natAbs ≠ 0 := Int.natAbs_ne_zero.mpr hn
    obtain ⟨⟨c, t, hbody, hc⟩, hgood⟩ := ecmaBody_spec n.natAbs scale hm
    have hcne : c ≠ '-' := isDigit_ne_dash hc
    split
    · refine ⟨by simp, ?_, ?_, ?_⟩
      · rw [hbody]; simp
      · intro x hx
        rcases List.mem_cons.mp hx with rfl | hx
        · decide
        · exact hgood x hx
      · rw [hbody, noDD_cons_cons]
        simp [hcne]
    · refine ⟨by rw [hbody]; simp, ?_, hgood, ?_⟩
      · rw [hbody]; intro h
        apply hcne
        have := List.head_eq_of_cons_eq h
        simpa using this
      · rw [hbody]
        exact noDD_of_head_ne c t hcne

theorem formatDisplayNumber_num_goodStr (q : ℚ) :
    GoodStr (formatDisplayNumber (JSNum.num q)) :=
  ecmaChars_goodStr _ _

theorem formatDisplayNumber_num_ne_error (q : ℚ) :
    formatDisplayNumber (JSNum.num q) ≠ chars "Error" :=
  goodStr_ne_error (formatDisplayNumber_num_goodStr q)

/-! Preservation of the well-formedness predicate by every command. -/

theorem goodStr_zero : GoodStr (chars "0") :=
  ⟨by decide, by decide, by decide, by decide⟩

theorem goodStr_single_digit (c : Char) (hc : c.isDigit = true) : GoodStr [c] := by
  refine ⟨by simp, ?_, ?_, rfl⟩
  · intro h
    rw [List.cons_eq_cons] at h
    exact isDigit_ne_dash hc h.1
  · intro x hx
    rw [List.mem_singleton] at hx
    subst hx
    exact goodChar_of_isDigit hc

theorem goodStr_dash_digit (c : Char) (hc : c.isDigit = true) : GoodStr ['-', c] := by
  refine ⟨by simp, by simp, ?_, ?_⟩
  · intro x hx
    rcases List.mem_cons.mp hx with rfl | hx
    · decide
    · rw [List.mem_singleton] at hx
      subst hx
      exact goodChar_of_isDigit hc
  · rw [noDD_cons_cons]
    simp [isDigit_ne_dash hc]

theorem goodStr_append_single {l : List Char} {c : Char} (h : GoodStr l)
    (hg : goodChar c = true) (hne : c ≠ '-') : GoodStr (l ++ [c]) := by
  obtain ⟨hnil, hdash, hgood, hdd⟩ := h
  refine ⟨by simp, ?_, ?_, ?_⟩
  · intro he
    have hlen := congrArg List.length he
    simp at hlen
    exact hnil hlen
  · intro x hx
    rcases List.mem_append.mp hx with hx | hx
    · exact hgood x hx
    · rw [List.mem_singleton] at hx; subst hx; exact hg
  · cases l with
    | nil => simp [noDD]
    | cons a t =>
        cases t with
        | nil =>
            rw [List.cons_append, List.nil_append, noDD_cons_cons]
            simp [hne]
        | cons b t2 =>
            rw [List.cons_append, List.cons_append, noDD_cons_cons]
            rw [noDD_cons_cons] at hdd
            exact hdd

theorem goodStr_drop_dash {t : List Char} (h : GoodStr ('-' :: t)) : GoodStr t := by
  obtain ⟨hnil, hdash, hgood, hdd⟩ := h
  cases t with
  | nil => exact absurd rfl hdash
  | cons c2 t2 =>
      rw [noDD_cons_cons] at hdd
      have hc2 : c2 ≠ '-' := by
        intro he
        subst he
        simp at hdd
      refine ⟨by simp, ?_, ?_, noDD_of_head_ne c2 t2 hc2⟩
      · intro he
        rw [List.cons_eq_cons] at he
        exact hc2 he.1
      · intro x hx
        exact hgood x (List.mem_cons_of_mem _ hx)

theorem goodStr_cons_dash {l : List Char} (h : GoodStr l)
    (hnd : startsWithDash l = false) : GoodStr ('-' :: l) := by
  obtain ⟨hnil, hdash, hgood, hdd⟩ := h
  cases l with
  | nil => exact absurd rfl hnil
  | cons a t =>
      have ha : a ≠ '-' := by
        rw [startsWithDash] at hnd
        exact fun he => by simp [he] at hnd
      refine ⟨by simp, by simp, ?_, ?_⟩
      · intro x hx
        rcases List.mem_cons.mp hx with rfl | hx
        · decide
        · exact hgood x hx
      · rw [noDD_cons_cons]
        simp [ha]

theorem noDD_dropLast {l : List Char} (h : noDD l = true) : noDD l.dropLast = true := by
  match l with
  | [] => exact rfl
  | [a] => exact rfl
  | [a, b] => exact rfl
  | a :: b :: c :: t =>
      rw [noDD_cons_cons] at h
      have : (a :: b :: c :: t).dropLast = a :: b :: (c :: t).dropLast := rfl
      rw [this, noDD_cons_cons]
      exact h

theorem goodStr_dropLast {l : List Char} (h : GoodStr l) (hlen : 2 ≤ l.length)
    (hdash : l.dropLast ≠ ['-']) : GoodStr l.dropLast := by
  obtain ⟨hnil, hd, hgood, hdd⟩ := h
  refine ⟨?_, hdash, ?_, noDD_dropLast hdd⟩
  · intro he
    have := congrArg List.length he
    rw [List.length_dropLast] at this
    simp at this
    omega
  · intro x hx
    exact hgood x ((List.dropLast_sublist l).mem hx)

theorem checkErrorState_false {s : CalculatorState} (he : s.isError = false)
    (hg : GoodStr s.currentInput) : checkErrorState s = false := by
  rw [checkErrorState, he]
  simp [goodStr_ne_error hg]

theorem good_not_error {s : CalculatorState} (h : Good s)
    (hc : checkErrorState s = false) : s.isError = false ∧ GoodStr s.currentInput := by
  rcases h with ⟨he, _⟩ | ⟨he, hg⟩
  · rw [checkErrorState, he] at hc; simp at hc
  · exact ⟨he, hg⟩

theorem resetState_spec {s : CalculatorState} (h : Good s) :
    (resetStateForNewInput s).isError = false ∧
      GoodStr (resetStateForNewInput s).currentInput := by
  rw [resetStateForNewInput]
  split
  · exact ⟨rfl, goodStr_zero⟩
  · rename_i hcond
    rw [Bool.or_eq_true, not_or] at hcond
    have hc : checkErrorState s = false := by
      cases hcheck : checkErrorState s
      · rfl
      · exact absurd hcheck hcond.1
    exact good_not_error h hc

theorem bool_eq_false {b : Bool} (h : ¬ b = true) : b = false := by
  cases b
  · rfl
  · exact absurd rfl h

theorem good_appendDigit {s : CalculatorState} {c : Char} (hc : c.isDigit = true)
    (h : Good s) : Good (appendDigit [c] s) := by
  obtain ⟨he, hg⟩ := resetState_spec h
  rw [show appendDigit [c] s =
      (if (resetStateForNewInput s).currentInput = chars "0"
       then { resetStateForNewInput s with currentInput := [c] }
       else if (resetStateForNewInput s).currentInput = chars "-0"
       then { resetStateForNewInput s with currentInput := '-' :: [c] }
       else { resetStateForNewInput s with
                currentInput := (resetStateForNewInput s).currentInput ++ [c] }) from rfl]
  split
  · exact Or.inr ⟨he, goodStr_single_digit c hc⟩
  · split
    · exact Or.inr ⟨he, goodStr_dash_digit c hc⟩
    · exact Or.inr ⟨he, goodStr_append_single hg (goodChar_of_isDigit hc) (isDigit_ne_dash hc)⟩

theorem good_addDecimalPoint {s : CalculatorState} (h : Good s) :
    Good (addDecimalPoint s) := by
  obtain ⟨he, hg⟩ := resetState_spec h
  rw [show addDecimalPoint s =
      (if (resetStateForNewInput s).currentInput.contains '.'
       then resetStateForNewInput s
       else { resetStateForNewInput s with
                currentInput := (resetStateForNewInput s).currentInput ++ ['.'] }) from rfl]
  split
  · exact Or.inr ⟨he, hg⟩
  · exact Or.inr ⟨he, goodStr_append_single hg (by decide) (by decide)⟩

theorem good_toggleSign {s : CalculatorState} (h : Good s) : Good (toggleSign s) := by
  rw [toggleSign]
  split
  · exact h
  · rename_i hcheck
    obtain ⟨he, hg⟩ := good_not_error h (bool_eq_false hcheck)
    split
    · exact h
    · split
      · rename_i hdash
        refine Or.inr ⟨he, ?_⟩
        show GoodStr (s.currentInput.drop 1)
        cases hci : s.currentInput with
        | nil => rw [hci] at hdash; simp [startsWithDash] at hdash
        | cons a t =>
            rw [hci] at hdash
            rw [startsWithDash] at hdash
            have ha : a = '-' := by simpa using hdash
            subst ha
            rw [List.drop_succ_cons, List.drop_zero]
            exact goodStr_drop_dash (hci ▸ hg)
      · rename_i hdash
        refine Or.inr ⟨he, ?_⟩
        show GoodStr ('-' :: s.currentInput)
        exact goodStr_cons_dash hg (bool_eq_false hdash)

theorem good_removeLastCharacter {s : CalculatorState} (h : Good s) :
    Good (removeLastCharacter s) := by
  rw [removeLastCharacter]
  split
  · exact h
  · rename_i hcheck
    obtain ⟨he, hg⟩ := good_not_error h (bool_eq_false hcheck)
    split
    · exact h
    · split
      · exact Or.inr ⟨he, goodStr_zero⟩
      · rename_i hguard
        rw [not_or] at hguard
        have hlen : 2 ≤ s.currentInput.length := by omega
        show Good (if s.currentInput.dropLast = chars "-"
            then { s with currentInput := chars "0" }
            else { s with currentInput := s.currentInput.dropLast })
        split
        · exact Or.inr ⟨he, goodStr_zero⟩
        · rename_i htrim
          exact Or.inr ⟨he, goodStr_dropLast hg hlen htrim⟩

theorem good_clearCalculator (s : CalculatorState) : Good (clearCalculator s) :=
  Or.inr ⟨rfl, goodStr_zero⟩

theorem good_selectOperator (op : String) {s : CalculatorState} (h : Good s) :
    Good (selectOperator op s) := by
  simp only [selectOperator]
  split
  · exact h
  · rename_i hcheck
    obtain ⟨he, hg⟩ := good_not_error h (bool_eq_false hcheck)
    by_cases hhc : s.hasCalculated = true
    · simp only [if_pos hhc]
      split
      · exact Or.inr ⟨he, goodStr_zero⟩
      · split
        · split
          · split
            · exact Or.inr ⟨he, goodStr_zero⟩
            · exact Or.inl ⟨rfl, rfl⟩
          · exact Or.inr ⟨he, hg⟩
        · exact Or.inr ⟨he, hg⟩
    · simp only [if_neg hhc]
      split
      · exact Or.inr ⟨he, goodStr_zero⟩
      · split
        · split
          · split
            · exact Or.inr ⟨he, goodStr_zero⟩
            · exact Or.inl ⟨rfl, rfl⟩
          · exact Or.inr ⟨he, hg⟩
        · exact Or.inr ⟨he, hg⟩

theorem good_calculateResult {s : CalculatorState} (h : Good s) :
    Good (calculateResult s) := by
  simp only [calculateResult]
  split
  · exact h
  · rename_i hcheck
    obtain ⟨he, hg⟩ := good_not_error h (bool_eq_false hcheck)
    split
    · rename_i pendingOp a heq1 heq2
      by_cases hhc : s.hasCalculated = true
      · simp only [if_pos hhc]
        split
        · rename_i hfin
          rcases hq : performCalculation a pendingOp
              (s.secondOperand.getD (getCurrentInputAsNumber s)) with _ | q
          · rw [hq] at hfin; simp [JSNum.isFinite] at hfin
          · exact Or.inr ⟨he, formatDisplayNumber_num_goodStr q⟩
        · exact Or.inl ⟨rfl, rfl⟩
      · simp only [if_neg hhc]
        split
        · rename_i hfin
          rcases hq : performCalculation a pendingOp (getCurrentInputAsNumber s) with _ | q
          · rw [hq] at hfin; simp [JSNum.isFinite] at hfin
          · exact Or.inr ⟨he, formatDisplayNumber_num_goodStr q⟩
        · exact Or.inl ⟨rfl, rfl⟩
    · exact h

theorem good_step (c : Cmd) {s : CalculatorState} (h : Good s) : Good (step c s) := by
  cases c with
  | digit d => exact good_appendDigit (digitChar_isDigit d.val) h
  | dot => exact good_addDecimalPoint h
  | sign => exact good_toggleSign h
  | backspace => exact good_removeLastCharacter h
  | clear => exact good_clearCalculator s
  | binop o => exact good_selectOperator o.toKey h
  | equals => exact good_calculateResult h

theorem good_initial : Good initialState := Or.inr ⟨rfl, goodStr_zero⟩

theorem good_foldl : ∀ (l : List Cmd) (s : CalculatorState), Good s →
    Good (List.foldl (fun s c => step c s) s l) := by
  intro l
  induction l with
  | nil => intro s h; exact h
  | cons c l ih => intro s h; exact ih (step c s) (good_step c h)

theorem good_run (cmds : List Cmd) : Good (run cmds) :=
  good_foldl cmds initialState good_initial

/-! Machinery for the repeated-equals behaviour. -/

theorem run_append (l : List Cmd) (c : Cmd) : run (l ++ [c]) = step c (run l) := by
  rw [run, run, List.foldl_append]
  rfl

theorem calculateResult_repeat (a b : ℚ) (ci : List Char) (hci : ci ≠ chars "Error") :
    calculateResult ⟨some (JSNum.num a), some (JSNum.num b), some "+", ci, true, false⟩
      = ⟨some (JSNum.num (a + b)), some (JSNum.num b), some "+",
         formatDisplayNumber (JSNum.num (a + b)), true, false⟩ := by
  rw [calculateResult, if_neg (by simp [checkErrorState, hci])]
  rfl

/-- Command sequence of the repeated-equals scenario: digit 5, operator plus,
digit 3, then n presses of equals. -/
def equalsSeq (n : ℕ) : List Cmd :=
  [Cmd.digit 5, Cmd.binop Op.addOp, Cmd.digit 3] ++ List.replicate n Cmd.equals

theorem step_equals (s : CalculatorState) : step Cmd.equals s = calculateResult s := rfl

theorem run_equalsSeq (N : ℕ) :
    run (equalsSeq (N + 1))
      = ⟨some (JSNum.num (5 + 3 * ((N : ℚ) + 1))), some (JSNum.num 3), some "+",
         formatDisplayNumber (JSNum.num (5 + 3 * ((N : ℚ) + 1))), true, false⟩ := by
  induction N with
  | zero =>
      have h8 : (5 + 3 * (((0 : ℕ) : ℚ) + 1)) = 8 := by norm_num
      rw [h8]
      with_unfolding_all decide
  | succ N ih =>
      have hsplit : equalsSeq (N + 1 + 1) = equalsSeq (N + 1) ++ [Cmd.equals] := by
        rw [equalsSeq, equalsSeq, List.replicate_succ' (n := N + 1), ← List.append_assoc]
      rw [hsplit, run_append, ih, step_equals]
      rw [calculateResult_repeat _ 3 _ (formatDisplayNumber_num_ne_error _)]
      have harith : (5 + 3 * ((N : ℚ) + 1)) + 3 = 5 + 3 * (((N + 1 : ℕ) : ℚ) + 1) := by
        push_cast
        ring
      rw [harith]

/-! Spec-side definitions for the display-formatting claim: rounding to 12
significant decimal digits, as the claim words it, and rounding to 12 decimal
places, which is what the code performs. -/

/-- Length of a natural number in decimal digits. -/
def natLen (n : Nat) : Nat := (natDigits n).length

/-- Floor of the base-10 logarithm of the absolute value of a nonzero
rational. -/
def log10floor (q : ℚ) : ℤ :=
  let e0 : ℤ := (natLen q.num.natAbs : ℤ) - natLen q.den
  if (10 : ℚ) ^ e0 ≤ |q| then e0 else e0 - 1

/-- Rounding to 12 significant decimal digits per the claim wording: keep 12
digits counted from the leading significant digit, rounding half up; the
result is a mantissa together with a decimal exponent. -/
def sigRound12 (q : ℚ) : ℤ × ℤ :=
  if q = 0 then (0, 0)
  else
    ((if q < 0 then -jsMathRound (|q| * (10 : ℚ) ^ (11 - log10floor |q|))
      else jsMathRound (|q| * (10 : ℚ) ^ (11 - log10floor |q|))),
     log10floor |q| - 11)

/-- Canonical decimal string of a value rounded to 12 significant decimal
digits, the display the claim asserts. -/
def specSigDisplay (q : ℚ) : List Char :=
  match sigRound12 q with
  | (m, e) => if 0 ≤ e then ecmaChars (m * 10 ^ e.toNat) 0 else ecmaChars m (-e).toNat

/-- Display string the code actually produces for a finite value: round to 12
decimal places after adding Number.EPSILON, rounding half up, then convert
canonically. -/
def specDecimalDisplay (q : ℚ) : List Char :=
  ecmaChars ⌊(q + 1 / 2 ^ 52) * 10 ^ 12 + 1 / 2⌋ 12

/-- Checker for the partial-number grammar of the invariant claim: an
optional leading minus sign, digits, an optional single point, digits. -/
def validPartialNumber (l : List Char) : Bool :=
  match (if startsWithDash l then l.drop 1 else l).dropWhile Char.isDigit with
  | [] => true
  | '.' :: r2 => r2.all Char.isDigit
  | _ => false

/-! Display-number grammar: the partial-number grammar optionally followed by
an exponent part, which is the shape of formatted results in exponential
notation. -/

/-- Exponent part after the letter e: a sign followed by at least one
digit. -/
def expTail : List Char → Bool
  | [] => false
  | c :: r => if c = '+' ∨ c = '-' then !r.isEmpty && r.all Char.isDigit else false

/-- Tail after the decimal point: digits, optionally followed by the letter e
and an exponent part. -/
def fracTail (l : List Char) : Bool :=
  match l.dropWhile Char.isDigit with
  | [] => true
  | c :: r3 => if c = 'e' then expTail r3 else false

/-- Unsigned display-number grammar: digits, an optional single point with
digits, an optional exponent part. -/
def displayBody (l : List Char) : Bool :=
  match l.dropWhile Char.isDigit with
  | [] => true
  | c :: r2 => if c = '.' then fracTail r2 else if c = 'e' then expTail r2 else false

/-- Checker for the display-number grammar of the amended invariant claim: an
optional leading minus sign followed by a display-number body. -/
def validDisplayNumber (l : List Char) : Bool :=
  displayBody (if startsWithDash l then l.drop 1 else l)

/-! Basic facts about the grammar checkers. -/

theorem startsWithDash_cons (a : Char) (t : List Char) :
    startsWithDash (a :: t) = (a == '-') := rfl

theorem startsWithDash_dash (t : List Char) : startsWithDash ('-' :: t) = true := rfl

theorem dropWhile_digits_nil (l : List Char) (h : l.all Char.isDigit = true) :
    l.dropWhile Char.isDigit = [] := by
  rw [List.dropWhile_eq_nil_iff]
  intro x hx
  exact (List.all_eq_true.mp h) x hx

theorem dropWhile_digits_append (ds rest : List Char) (h : ds.all Char.isDigit = true) :
    (ds ++ rest).dropWhile Char.isDigit = rest.dropWhile Char.isDigit := by
  induction ds with
  | nil => rfl
  | cons c t ih =>
      rw [List.all_cons, Bool.and_eq_true] at h
      rw [List.cons_append, List.dropWhile_cons_of_pos h.1]
      exact ih h.2

theorem dropWhile_not_digit (c : Char) (r : List Char) (hc : c.isDigit = false) :
    (c :: r).dropWhile Char.isDigit = c :: r := by
  rw [List.dropWhile_cons_of_neg]
  rw [hc]
  exact Bool.false_ne_true

theorem takeWhile_digits_all (l : List Char) :
    (l.takeWhile Char.isDigit).all Char.isDigit = true := by
  rw [List.all_eq_true]
  intro x hx
  exact List.mem_takeWhile_imp hx

theorem all_digits_sublist {l m : List Char} (hs : List.Sublist l m)
    (h : m.all Char.isDigit = true) : l.all Char.isDigit = true := by
  rw [List.all_eq_true] at h ⊢
  intro x hx
  exact h x (hs.mem hx)

/-! Introduction and case analysis for the partial-number checker. -/

theorem vp_of_digits (l : List Char) (h : l.all Char.isDigit = true) :
    validPartialNumber l = true := by
  have hnd : startsWithDash l = false := by
    cases l with
    | nil => rfl
    | cons a t =>
        rw [startsWithDash_cons]
        have ha : a.isDigit = true := (List.all_eq_true.mp h) a (by simp)
        simp [isDigit_ne_dash ha]
  rw [validPartialNumber, if_neg (by rw [hnd]; exact Bool.false_ne_true),
      dropWhile_digits_nil l h]

theorem vp_of_digits_dot (ds r2 : List Char) (hds : ds.all Char.isDigit = true)
    (hr2 : r2.all Char.isDigit = true) : validPartialNumber (ds ++ '.' :: r2) = true := by
  have hnd : startsWithDash (ds ++ '.' :: r2) = false := by
    cases ds with
    | nil => rw [List.nil_append, startsWithDash_cons]; decide
    | cons a t =>
        rw [List.cons_append, startsWithDash_cons]
        have ha : a.isDigit = true := (List.all_eq_true.mp hds) a (by simp)
        simp [isDigit_ne_dash ha]
  rw [validPartialNumber, if_neg (by rw [hnd]; exact Bool.false_ne_true),
      dropWhile_digits_append ds _ hds, dropWhile_not_digit '.' r2 (by decide)]
  exact hr2

theorem vp_cases_of_not_dash (l : List Char) (hnd : startsWithDash l = false)
    (h : validPartialNumber l = true) :
    l.all Char.isDigit = true ∨
      ∃ ds r2, l = ds ++ '.' :: r2 ∧ ds.all Char.isDigit = true ∧
        r2.all Char.isDigit = true := by
  rw [validPartialNumber, if_neg (by rw [hnd]; exact Bool.false_ne_true)] at h
  split at h
  · rename_i hdw
    left
    have hsplit := List.takeWhile_append_dropWhile Char.isDigit l
    rw [hdw, List.append_nil] at hsplit
    rw [← hsplit]
    exact takeWhile_digits_all l
  · rename_i r2 hdw
    right
    refine ⟨l.takeWhile Char.isDigit, r2, ?_, takeWhile_digits_all l, h⟩
    conv_lhs => rw [← List.takeWhile_append_dropWhile Char.isDigit l]
    rw [hdw]
  · exact absurd h (by simp)

theorem vp_cons_dash (t : List Char) (hnd : startsWithDash t = false) :
    validPartialNumber ('-' :: t) = validPartialNumber t := by
  rw [validPartialNumber, validPartialNumber, if_pos (startsWithDash_dash t),
      if_neg (by rw [hnd]; exact Bool.false_ne_true), List.drop_succ_cons, List.drop_zero]

theorem vp_double_dash (t2 : List Char) : validPartialNumber ('-' :: '-' :: t2) = false := by
  rw [validPartialNumber, if_pos (startsWithDash_dash _), List.drop_succ_cons,
      List.drop_zero, dropWhile_not_digit '-' t2 (by decide)]
  rfl

theorem vp_strip_dash (t : List Char) (h : validPartialNumber ('-' :: t) = true) :
    validPartialNumber t = true ∧ startsWithDash t = false := by
  have hnd : startsWithDash t = false := by
    cases t with
    | nil => rfl
    | cons a t2 =>
        rw [startsWithDash_cons]
        by_cases ha : a = '-'
        · subst ha
          rw [vp_double_dash] at h
          exact absurd h Bool.false_ne_true
        · simp [ha]
  exact ⟨by rw [← vp_cons_dash t hnd]; exact h, hnd⟩

/-! The corresponding facts for the display-number checker. -/

theorem dv_of_body (l : List Char) (hnd : startsWithDash l = false) :
    validDisplayNumber l = displayBody l := by
  rw [validDisplayNumber, if_neg (by rw [hnd]; exact Bool.false_ne_true)]

theorem dv_cons_dash (t : List Char) (hnd : startsWithDash t = false) :
    validDisplayNumber ('-' :: t) = validDisplayNumber t := by
  rw [validDisplayNumber, validDisplayNumber, if_pos (startsWithDash_dash t),
      if_neg (by rw [hnd]; exact Bool.false_ne_true), List.drop_succ_cons, List.drop_zero]

theorem displayBody_dash (t2 : List Char) : displayBody ('-' :: t2) = false := by
  rw [displayBody, dropWhile_not_digit '-' t2 (by decide)]
  rfl

theorem dv_double_dash (t2 : List Char) :
    validDisplayNumber ('-' :: '-' :: t2) = false := by
  rw [validDisplayNumber, if_pos (startsWithDash_dash _), List.drop_succ_cons, List.drop_zero]
  exact displayBody_dash t2

theorem dv_strip_dash (t : List Char) (h : validDisplayNumber ('-' :: t) = true) :
    validDisplayNumber t = true ∧ startsWithDash t = false := by
  have hnd : startsWithDash t = false := by
    cases t with
    | nil => rfl
    | cons a t2 =>
        rw [startsWithDash_cons]
        by_cases ha : a = '-'
        · subst ha
          rw [dv_double_dash] at h
          exact absurd h Bool.false_ne_true
        · simp [ha]
  exact ⟨by rw [← dv_cons_dash t hnd]; exact h, hnd⟩

/-! Closure of the partial-number grammar under the editing operations:
appending a digit, appending the decimal point to a point-free input, and
removing the last character. -/

theorem vp_append_digit_noDash (l : List Char) (c : Char)
    (h : validPartialNumber l = true) (hnd : startsWithDash l = false)
    (hc : c.isDigit = true) : validPartialNumber (l ++ [c]) = true := by
  rcases vp_cases_of_not_dash l hnd h with hall | ⟨ds, r2, rfl, hds, hr2⟩
  · refine vp_of_digits _ ?_
    rw [List.all_append, hall]
    simp [hc]
  · have hshift : (ds ++ '.' :: r2) ++ [c] = ds ++ '.' :: (r2 ++ [c]) := by simp
    rw [hshift]
    refine vp_of_digits_dot ds (r2 ++ [c]) hds ?_
    rw [List.all_append, hr2]
    simp [hc]

theorem vp_append_digit (l : List Char) (c : Char) (h : validPartialNumber l = true)
    (hc : c.isDigit = true) : validPartialNumber (l ++ [c]) = true := by
  by_cases hd : startsWithDash l = true
  · cases l with
    | nil => simp [startsWithDash] at hd
    | cons a t =>
        have ha : a = '-' := by rw [startsWithDash_cons] at hd; simpa using hd
        subst ha
        obtain ⟨ht, hnd⟩ := vp_strip_dash t h
        have hnd2 : startsWithDash (t ++ [c]) = false := by
          cases t with
          | nil => rw [List.nil_append, startsWithDash_cons]; simp [isDigit_ne_dash hc]
          | cons b t2 =>
              rw [List.cons_append, startsWithDash_cons]
              rw [startsWithDash_cons] at hnd
              exact hnd
        rw [List.cons_append, vp_cons_dash _ hnd2]
        exact vp_append_digit_noDash t c ht hnd hc
  · exact vp_append_digit_noDash l c h (bool_eq_false hd) hc

theorem vp_append_dot_noDash (l : List Char) (h : validPartialNumber l = true)
    (hnd : startsWithDash l = false) (hnm : '.' ∉ l) :
    validPartialNumber (l ++ ['.']) = true := by
  rcases vp_cases_of_not_dash l hnd h with hall | ⟨ds, r2, rfl, hds, hr2⟩
  · have hshape : l ++ ['.'] = l ++ '.' :: ([] : List Char) := rfl
    rw [hshape]
    exact vp_of_digits_dot l [] hall rfl
  · exact absurd (by simp : '.' ∈ ds ++ '.' :: r2) hnm

theorem vp_append_dot (l : List Char) (h : validPartialNumber l = true)
    (hnm : '.' ∉ l) : validPartialNumber (l ++ ['.']) = true := by
  by_cases hd : startsWithDash l = true
  · cases l with
    | nil => simp [startsWithDash] at hd
    | cons a t =>
        have ha : a = '-' := by rw [startsWithDash_cons] at hd; simpa using hd
        subst ha
        obtain ⟨ht, hnd⟩ := vp_strip_dash t h
        have hnm2 : '.' ∉ t := fun hm => hnm (List.mem_cons_of_mem _ hm)
        have hnd2 : startsWithDash (t ++ ['.']) = false := by
          cases t with
          | nil => rw [List.nil_append, startsWithDash_cons]; decide
          | cons b t2 =>
              rw [List.cons_append, startsWithDash_cons]
              rw [startsWithDash_cons] at hnd
              exact hnd
        rw [List.cons_append, vp_cons_dash _ hnd2]
        exact vp_append_dot_noDash t ht hnd hnm2
  · exact vp_append_dot_noDash l h (bool_eq_false hd) hnm

theorem vp_dropLast_noDash (l : List Char) (h : validPartialNumber l = true)
    (hnd : startsWithDash l = false) : validPartialNumber l.dropLast = true := by
  rcases vp_cases_of_not_dash l hnd h with hall | ⟨ds, r2, rfl, hds, hr2⟩
  · exact vp_of_digits _ (all_digits_sublist (List.dropLast_sublist l) hall)
  · rcases r2 with _ | ⟨y, ys⟩
    · rw [List.dropLast_concat]
      exact vp_of_digits ds hds
    · rw [List.dropLast_append_of_ne_nil ds (by simp)]
      have hshape : ('.' :: y :: ys).dropLast = '.' :: (y :: ys).dropLast := rfl
      rw [hshape]
      exact vp_of_digits_dot ds _ hds
        (all_digits_sublist (List.dropLast_sublist (y :: ys)) hr2)

theorem vp_dropLast (l : List Char) (h : validPartialNumber l = true) :
    validPartialNumber l.dropLast = true := by
  by_cases hd : startsWithDash l = true
  · cases l with
    | nil => simp [startsWithDash] at hd
    | cons a t =>
        have ha : a = '-' := by rw [startsWithDash_cons] at hd; simpa using hd
        subst ha
        obtain ⟨ht, hnd⟩ := vp_strip_dash t h
        cases t with
        | nil => decide
        | cons b t2 =>
            have hshape : ('-' :: b :: t2).dropLast = '-' :: (b :: t2).dropLast := rfl
            rw [hshape]
            cases t2 with
            | nil =>
                show validPartialNumber ['-'] = true
                decide
            | cons z zs =>
                have hnd2 : startsWithDash ((b :: z :: zs).dropLast) = false := by
                  have hshape2 : (b :: z :: zs).dropLast = b :: (z :: zs).dropLast := rfl
                  rw [hshape2, startsWithDash_cons]
                  rw [startsWithDash_cons] at hnd
                  exact hnd
                rw [vp_cons_dash _ hnd2]
                exact vp_dropLast_noDash (b :: z :: zs) ht hnd
  · exact vp_dropLast_noDash l h (bool_eq_false hd)

/-! Every partial-number string also satisfies the display-number grammar. -/

theorem partialBody_display (l : List Char) (hnd : startsWithDash l = false)
    (h : validPartialNumber l = true) : displayBody l = true := by
  rcases vp_cases_of_not_dash l hnd h with hall | ⟨ds, r2, rfl, hds, hr2⟩
  · rw [displayBody, dropWhile_digits_nil l hall]
  · rw [displayBody, dropWhile_digits_append ds _ hds,
        dropWhile_not_digit '.' r2 (by decide)]
    show fracTail r2 = true
    rw [fracTail, dropWhile_digits_nil r2 hr2]

theorem vp_display (l : List Char) (h : validPartialNumber l = true) :
    validDisplayNumber l = true := by
  by_cases hd : startsWithDash l = true
  · cases l with
    | nil => simp [startsWithDash] at hd
    | cons a t =>
        have ha : a = '-' := by rw [startsWithDash_cons] at hd; simpa using hd
        subst ha
        obtain ⟨ht, hnd⟩ := vp_strip_dash t h
        rw [dv_cons_dash t hnd, dv_of_body t hnd]
        exact partialBody_display t hnd ht
  · have hnd := bool_eq_false hd
    rw [dv_of_body l hnd]
    exact partialBody_display l hnd h

/-! The formatted display of a finite value satisfies the display-number
grammar. -/

theorem natChars_ne_nil (m : Nat) (hm : m ≠ 0) : natChars m ≠ [] := by
  rw [natChars]
  obtain ⟨l, d, hcat, _⟩ := natDigits_concat m hm
  rw [hcat]
  simp

theorem expTail_build (sgn : Char) (r : List Char) (hsgn : sgn = '+' ∨ sgn = '-')
    (hr : r ≠ []) (hdig : r.all Char.isDigit = true) : expTail (sgn :: r) = true := by
  rw [expTail, if_pos hsgn, hdig]
  cases r with
  | nil => exact absurd rfl hr
  | cons x xs => rfl

theorem natChars_all_digits (m : Nat) : (natChars m).all Char.isDigit = true := by
  rw [List.all_eq_true]
  exact natChars_isDigit m

theorem ecmaExponentialTail_shape (nPos : ℤ) (he : nPos - 1 ≠ 0) :
    ∃ r3, ecmaExponentialTail nPos = 'e' :: r3 ∧ expTail r3 = true := by
  rw [ecmaExponentialTail]
  split
  · rename_i hneg
    refine ⟨'-' :: natChars (-(nPos - 1)).toNat, rfl, ?_⟩
    refine expTail_build '-' _ (Or.inr rfl) (natChars_ne_nil _ ?_) (natChars_all_digits _)
    omega
  · rename_i hpos
    refine ⟨'+' :: natChars (nPos - 1).toNat, rfl, ?_⟩
    refine expTail_build '+' _ (Or.inl rfl) (natChars_ne_nil _ ?_) (natChars_all_digits _)
    omega

theorem fracTail_digits (r2 : List Char) (h : r2.all Char.isDigit = true) :
    fracTail r2 = true := by
  rw [fracTail, dropWhile_digits_nil r2 h]

theorem fracTail_digits_exp (ds r3 : List Char) (hds : ds.all Char.isDigit = true)
    (he : expTail r3 = true) : fracTail (ds ++ 'e' :: r3) = true := by
  rw [fracTail, dropWhile_digits_append ds _ hds, dropWhile_not_digit 'e' r3 (by decide)]
  show (if 'e' = 'e' then expTail r3 else false) = true
  rw [if_pos rfl]
  exact he

theorem displayBody_all_digits (l : List Char) (h : l.all Char.isDigit = true) :
    displayBody l = true := by
  rw [displayBody, dropWhile_digits_nil l h]

theorem displayBody_dot (ds r2 : List Char) (hds : ds.all Char.isDigit = true)
    (hf : fracTail r2 = true) : displayBody (ds ++ '.' :: r2) = true := by
  rw [displayBody, dropWhile_digits_append ds _ hds, dropWhile_not_digit '.' r2 (by decide)]
  show (if '.' = '.' then fracTail r2 else if '.' = 'e' then expTail r2 else false) = true
  rw [if_pos rfl]
  exact hf

theorem displayBody_exp (ds r3 : List Char) (hds : ds.all Char.isDigit = true)
    (he : expTail r3 = true) : displayBody (ds ++ 'e' :: r3) = true := by
  rw [displayBody, dropWhile_digits_append ds _ hds, dropWhile_not_digit 'e' r3 (by decide)]
  show (if 'e' = '.' then fracTail r3 else if 'e' = 'e' then expTail r3 else false) = true
  rw [if_neg (by decide), if_pos rfl]
  exact he

theorem ecmaExponential_display (s : List Char) (nPos : ℤ) (hs : s ≠ [])
    (hdig : ∀ c ∈ s, c.isDigit = true) (he : nPos - 1 ≠ 0) :
    displayBody (ecmaExponential s nPos) = true := by
  obtain ⟨r3, htail, hexp⟩ := ecmaExponentialTail_shape nPos he
  obtain ⟨c, t, rfl⟩ := List.exists_cons_of_ne_nil hs
  have hc : c.isDigit = true := hdig c (by simp)
  cases t with
  | nil =>
      have hE : ecmaExponential [c] nPos = [c] ++ ecmaExponentialTail nPos := rfl
      rw [hE, htail]
      exact displayBody_exp [c] r3 (by simp [hc]) hexp
  | cons c2 t2 =>
      have hE : ecmaExponential (c :: c2 :: t2) nPos
          = [c] ++ '.' :: (c2 :: (t2 ++ ecmaExponentialTail nPos)) := rfl
      rw [hE, htail]
      refine displayBody_dot [c] _ (by simp [hc]) ?_
      have hshape : c2 :: (t2 ++ 'e' :: r3) = (c2 :: t2) ++ 'e' :: r3 := by simp
      rw [hshape]
      refine fracTail_digits_exp (c2 :: t2) r3 ?_ hexp
      rw [List.all_eq_true]
      intro x hx
      exact hdig x (List.mem_cons_of_mem c hx)

theorem ecmaPositional_display (s : List Char) (nPos : ℤ) (_hs : s ≠ [])
    (hdig : ∀ c ∈ s, c.isDigit = true) :
    displayBody (ecmaPositional s nPos) = true := by
  have hall : s.all Char.isDigit = true := List.all_eq_true.mpr hdig
  rw [ecmaPositional]
  split
  · refine displayBody_all_digits _ ?_
    rw [List.all_append, hall, Bool.true_and, List.all_eq_true]
    intro x hx
    rw [List.eq_of_mem_replicate hx]
    decide
  · split
    · refine displayBody_dot _ _ ?_ (fracTail_digits _ ?_)
      · exact all_digits_sublist (List.take_sublist _ s) hall
      · exact all_digits_sublist (List.drop_sublist _ s) hall
    · have hshape : ('0' :: '.' :: (List.replicate (-nPos).toNat '0' ++ s))
          = ['0'] ++ '.' :: (List.replicate (-nPos).toNat '0' ++ s) := rfl
      rw [hshape]
      refine displayBody_dot _ _ (by decide) (fracTail_digits _ ?_)
      rw [List.all_append, hall, Bool.and_true, List.all_eq_true]
      intro x hx
      rw [List.eq_of_mem_replicate hx]
      decide

theorem ecmaBody_display (m scale : Nat) (hm : m ≠ 0) :
    displayBody (ecmaBody m scale) = true := by
  rw [ecmaBody]
  split
  · exact ecmaPositional_display _ _ (sigDigitsChars_ne_nil m hm) (sigDigitsChars_isDigit m)
  · rename_i hcond
    refine ecmaExponential_display _ _ (sigDigitsChars_ne_nil m hm)
      (sigDigitsChars_isDigit m) ?_
    omega

theorem validDisplayNumber_ecmaChars (n : ℤ) (scale : Nat) :
    validDisplayNumber (ecmaChars n scale) = true := by
  rw [ecmaChars]
  split
  · decide
  · rename_i hn
    have hm : n.natAbs ≠ 0 := Int.natAbs_ne_zero.mpr hn
    obtain ⟨⟨c, t, hbody, hcdig⟩, _⟩ := ecmaBody_spec n.natAbs scale hm
    have hnd : startsWithDash (ecmaBody n.natAbs scale) = false := by
      rw [hbody, startsWithDash_cons]
      simp [isDigit_ne_dash hcdig]
    split
    · rw [dv_cons_dash _ hnd, dv_of_body _ hnd]
      exact ecmaBody_display _ _ hm
    · rw [dv_of_body _ hnd]
      exact ecmaBody_display _ _ hm

theorem validDisplayNumber_fmt (q : ℚ) :
    validDisplayNumber (formatDisplayNumber (JSNum.num q)) = true :=
  validDisplayNumber_ecmaChars _ _

/-! The grammar reachability invariant: outside the error state the current
input under construction is a partial-number string, and right after a
calculation it is a formatted display string (partial-number grammar plus the
optional exponent part) with an operator and first operand still pending. -/

/-- Grammar invariant on states. -/
def Good2 (s : CalculatorState) : Prop :=
  (s.isError = true ∧ s.currentInput = chars "Error") ∨
  (s.isError = false ∧ s.hasCalculated = false ∧
    validPartialNumber s.currentInput = true) ∨
  (s.isError = false ∧ s.hasCalculated = true ∧
    validDisplayNumber s.currentInput = true ∧
    s.operator ≠ none ∧ s.firstOperand ≠ none)

theorem vp_zero : validPartialNumber (chars "0") = true := by decide

theorem good2_not_error {s : CalculatorState} (h : Good2 s)
    (hc : checkErrorState s = false) :
    s.isError = false ∧
      ((s.hasCalculated = false ∧ validPartialNumber s.currentInput = true) ∨
       (s.hasCalculated = true ∧ validDisplayNumber s.currentInput = true ∧
        s.operator ≠ none ∧ s.firstOperand ≠ none)) := by
  rcases h with ⟨he, _⟩ | ⟨he, hhc, hvp⟩ | ⟨he, hhc, hvd, hop, hfo⟩
  · rw [checkErrorState, he] at hc; simp at hc
  · exact ⟨he, Or.inl ⟨hhc, hvp⟩⟩
  · exact ⟨he, Or.inr ⟨hhc, hvd, hop, hfo⟩⟩

theorem resetState_spec2 {s : CalculatorState} (h : Good2 s) :
    (resetStateForNewInput s).isError = false ∧
      (resetStateForNewInput s).hasCalculated = false ∧
      validPartialNumber (resetStateForNewInput s).currentInput = true := by
  rw [resetStateForNewInput]
  split
  · exact ⟨rfl, rfl, vp_zero⟩
  · rename_i hcond
    rw [Bool.or_eq_true, not_or] at hcond
    have hc : checkErrorState s = false := bool_eq_false hcond.1
    have hhc : s.hasCalculated = false := bool_eq_false hcond.2
    obtain ⟨he, hcase⟩ := good2_not_error h hc
    rcases hcase with ⟨_, hvp⟩ | ⟨hhc2, _⟩
    · exact ⟨he, hhc, hvp⟩
    · rw [hhc] at hhc2; exact absurd hhc2 Bool.false_ne_true

theorem good2_appendDigit {s : CalculatorState} {c : Char} (hc : c.isDigit = true)
    (h : Good2 s) : Good2 (appendDigit [c] s) := by
  obtain ⟨he, hhc, hvp⟩ := resetState_spec2 h
  rw [show appendDigit [c] s =
      (if (resetStateForNewInput s).currentInput = chars "0"
       then { resetStateForNewInput s with currentInput := [c] }
       else if (resetStateForNewInput s).currentInput = chars "-0"
       then { resetStateForNewInput s with currentInput := '-' :: [c] }
       else { resetStateForNewInput s with
                currentInput := (resetStateForNewInput s).currentInput ++ [c] }) from rfl]
  split
  · exact Or.inr (Or.inl ⟨he, hhc, vp_of_digits [c] (by simp [hc])⟩)
  · split
    · refine Or.inr (Or.inl ⟨he, hhc, ?_⟩)
      show validPartialNumber ('-' :: [c]) = true
      rw [vp_cons_dash [c] (by rw [startsWithDash_cons]; simp [isDigit_ne_dash hc])]
      exact vp_of_digits [c] (by simp [hc])
    · exact Or.inr (Or.inl ⟨he, hhc, vp_append_digit _ c hvp hc⟩)

theorem good2_addDecimalPoint {s : CalculatorState} (h : Good2 s) :
    Good2 (addDecimalPoint s) := by
  obtain ⟨he, hhc, hvp⟩ := resetState_spec2 h
  rw [show addDecimalPoint s =
      (if (resetStateForNewInput s).currentInput.contains '.'
       then resetStateForNewInput s
       else { resetStateForNewInput s with
                currentInput := (resetStateForNewInput s).currentInput ++ ['.'] }) from rfl]
  split
  · exact Or.inr (Or.inl ⟨he, hhc, hvp⟩)
  · rename_i hcont
    refine Or.inr (Or.inl ⟨he, hhc, vp_append_dot _ hvp ?_⟩)
    have hcf := bool_eq_false hcont
    simp at hcf
    exact hcf

theorem good2_toggleSign {s : CalculatorState} (h : Good2 s) :
    Good2 (toggleSign s) := by
  rw [toggleSign]
  split
  · exact h
  · rename_i hcheck
    obtain ⟨he, hcase⟩ := good2_not_error h (bool_eq_false hcheck)
    split
    · exact h
    · split
      · rename_i hdash
        cases hci : s.currentInput with
        | nil => rw [hci] at hdash; simp [startsWithDash] at hdash
        | cons a t =>
            rw [hci] at hdash
            rw [startsWithDash_cons] at hdash
            have ha : a = '-' := by simpa using hdash
            subst ha
            rw [List.drop_succ_cons, List.drop_zero]
            rcases hcase with ⟨hhc, hvp⟩ | ⟨hhc, hvd, hop, hfo⟩
            · rw [hci] at hvp
              exact Or.inr (Or.inl ⟨he, hhc, (vp_strip_dash t hvp).1⟩)
            · rw [hci] at hvd
              exact Or.inr (Or.inr ⟨he, hhc, (dv_strip_dash t hvd).1, hop, hfo⟩)
      · rename_i hdash
        have hnd := bool_eq_false hdash
        rcases hcase with ⟨hhc, hvp⟩ | ⟨hhc, hvd, hop, hfo⟩
        · refine Or.inr (Or.inl ⟨he, hhc, ?_⟩)
          show validPartialNumber ('-' :: s.currentInput) = true
          rw [vp_cons_dash _ hnd]
          exact hvp
        · refine Or.inr (Or.inr ⟨he, hhc, ?_, hop, hfo⟩)
          show validDisplayNumber ('-' :: s.currentInput) = true
          rw [dv_cons_dash _ hnd]
          exact hvd

theorem good2_removeLastCharacter {s : CalculatorState} (h : Good2 s) :
    Good2 (removeLastCharacter s) := by
  rw [removeLastCharacter]
  split
  · exact h
  · rename_i hcheck
    obtain ⟨he, hcase⟩ := good2_not_error h (bool_eq_false hcheck)
    split
    · exact h
    · rename_i hhcg
      have hhc : s.hasCalculated = false := bool_eq_false hhcg
      have hvp : validPartialNumber s.currentInput = true := by
        rcases hcase with ⟨_, hvp⟩ | ⟨hhc2, _⟩
        · exact hvp
        · rw [hhc] at hhc2; exact absurd hhc2 Bool.false_ne_true
      split
      · exact Or.inr (Or.inl ⟨he, hhc, vp_zero⟩)
      · show Good2 (if s.currentInput.dropLast = chars "-"
            then { s with currentInput := chars "0" }
            else { s with currentInput := s.currentInput.dropLast })
        split
        · exact Or.inr (Or.inl ⟨he, hhc, vp_zero⟩)
        · exact Or.inr (Or.inl ⟨he, hhc, vp_dropLast _ hvp⟩)

theorem good2_clearCalculator (s : CalculatorState) : Good2 (clearCalculator s) :=
  Or.inr (Or.inl ⟨rfl, rfl, vp_zero⟩)

theorem good2_selectOperator (op : String) {s : CalculatorState} (h : Good2 s) :
    Good2 (selectOperator op s) := by
  simp only [selectOperator]
  split
  · exact h
  · rename_i hcheck
    obtain ⟨he, hcase⟩ := good2_not_error h (bool_eq_false hcheck)
    rcases hcase with ⟨hhc, hvp⟩ | ⟨hhc, hvd, hop, hfo⟩
    · simp only [if_neg (show ¬ s.hasCalculated = true by
        rw [hhc]; exact Bool.false_ne_true)]
      split
      · exact Or.inr (Or.inl ⟨he, hhc, vp_zero⟩)
      · split
        · split
          · split
            · exact Or.inr (Or.inl ⟨he, hhc, vp_zero⟩)
            · exact Or.inl ⟨rfl, rfl⟩
          · exact Or.inr (Or.inl ⟨he, hhc, hvp⟩)
        · exact Or.inr (Or.inl ⟨he, hhc, hvp⟩)
    · simp only [if_pos hhc]
      split
      · rename_i heqf
        exact absurd heqf hfo
      · split
        · split
          · split
            · exact Or.inr (Or.inl ⟨he, rfl, vp_zero⟩)
            · exact Or.inl ⟨rfl, rfl⟩
          · rename_i hci0
            have hci : s.currentInput = chars "0" := not_not.mp hci0
            refine Or.inr (Or.inl ⟨he, rfl, ?_⟩)
            show validPartialNumber s.currentInput = true
            rw [hci]
            exact vp_zero
        · rename_i heqo
          exact absurd heqo hop

theorem good2_calculateResult {s : CalculatorState} (h : Good2 s) :
    Good2 (calculateResult s) := by
  simp only [calculateResult]
  split
  · exact h
  · rename_i hcheck
    obtain ⟨he, _⟩ := good2_not_error h (bool_eq_false hcheck)
    split
    · rename_i pendingOp a heq1 heq2
      by_cases hhc : s.hasCalculated = true
      · simp only [if_pos hhc]
        split
        · rename_i hfin
          rcases hq : performCalculation a pendingOp
              (s.secondOperand.getD (getCurrentInputAsNumber s)) with _ | q
          · rw [hq] at hfin; simp [JSNum.isFinite] at hfin
          · refine Or.inr (Or.inr ⟨he, rfl, validDisplayNumber_fmt q, ?_,
              Option.some_ne_none _⟩)
            show s.operator ≠ none
            rw [heq1]
            exact Option.some_ne_none _
        · exact Or.inl ⟨rfl, rfl⟩
      · simp only [if_neg hhc]
        split
        · rename_i hfin
          rcases hq : performCalculation a pendingOp (getCurrentInputAsNumber s) with _ | q
          · rw [hq] at hfin; simp [JSNum.isFinite] at hfin
          · refine Or.inr (Or.inr ⟨he, rfl, validDisplayNumber_fmt q, ?_,
              Option.some_ne_none _⟩)
            show s.operator ≠ none
            rw [heq1]
            exact Option.some_ne_none _
        · exact Or.inl ⟨rfl, rfl⟩
    · exact h

theorem good2_step (c : Cmd) {s : CalculatorState} (h : Good2 s) : Good2 (step c s) := by
  cases c with
  | digit d => exact good2_appendDigit (digitChar_isDigit d.val) h
  | dot => exact good2_addDecimalPoint h
  | sign => exact good2_toggleSign h
  | backspace => exact good2_removeLastCharacter h
  | clear => exact good2_clearCalculator s
  | binop o => exact good2_selectOperator o.toKey h
  | equals => exact good2_calculateResult h

theorem good2_initial : Good2 initialState := Or.inr (Or.inl ⟨rfl, rfl, vp_zero⟩)

theorem good2_foldl : ∀ (l : List Cmd) (s : CalculatorState), Good2 s →
    Good2 (List.foldl (fun s c => step c s) s l) := by
  intro l
  induction l with
  | nil => intro s h; exact h
  | cons c l ih => intro s h; exact ih (step c s) (good2_step c h)

theorem good2_run (cmds : List Cmd) : Good2 (run cmds) :=
  good2_foldl cmds initialState good2_initial

/-! Claim theorems. -/

/-- Claim C1: for every state not in error, whenever selectOperator or
calculateResult computes a non-finite result (division by zero included), the
resulting state has currentInput equal to the Error text, isError true, and
firstOperand, secondOperand and operator all null. A non-error state with a
pending operator is written with its firstOperand and operator fields filled
and isError false; the hypotheses pin down the branch in which the operation
actually computes. -/
theorem claim_C1 :
    (∀ (sO : Option JSNum) (hC : Bool) (ci : List Char) (a : JSNum) (o op2 : String),
      ci ≠ chars "Error" → ci ≠ chars "0" →
      (performCalculation a o
        (getCurrentInputAsNumber ⟨some a, sO, some o, ci, hC, false⟩)).isFinite = false →
      selectOperator op2 ⟨some a, sO, some o, ci, hC, false⟩
        = ⟨none, none, none, chars "Error", false, true⟩) ∧
    (∀ (sO : Option JSNum) (hC : Bool) (ci : List Char) (a : JSNum) (o : String),
      ci ≠ chars "Error" →
      (performCalculation a o
        (if hC then sO.getD (getCurrentInputAsNumber ⟨some a, sO, some o, ci, hC, false⟩)
         else getCurrentInputAsNumber ⟨some a, sO, some o, ci, hC, false⟩)).isFinite = false →
      calculateResult ⟨some a, sO, some o, ci, hC, false⟩
        = ⟨none, none, none, chars "Error", hC, true⟩) := by
  constructor
  · intro sO hC ci a o op2 hciE hci0 hfin
    cases hC <;>
      · rw [selectOperator, if_neg (by simp [checkErrorState, hciE])]
        show (if ci ≠ chars "0" then _ else _) = _
        rw [if_pos hci0]
        show (if (performCalculation a o
            (getCurrentInputAsNumber ⟨some a, sO, some o, ci, _, false⟩)).isFinite = true
          then _ else _) = _
        rw [if_neg (by rw [hfin]; exact Bool.false_ne_true)]
        rfl
  · intro sO hC ci a o hciE hfin
    cases hC
    · simp only [Bool.false_eq_true, if_false] at hfin
      rw [calculateResult, if_neg (by simp [checkErrorState, hciE])]
      show (if (performCalculation a o (getCurrentInputAsNumber
          ⟨some a, sO, some o, ci, false, false⟩)).isFinite = true then _ else _) = _
      rw [if_neg (by rw [hfin]; exact Bool.false_ne_true)]
    · rw [if_pos rfl] at hfin
      rw [calculateResult, if_neg (by simp [checkErrorState, hciE])]
      show (if (performCalculation a o (sO.getD (getCurrentInputAsNumber
          ⟨some a, sO, some o, ci, true, false⟩))).isFinite = true then _ else _) = _
      rw [if_neg (by rw [hfin]; exact Bool.false_ne_true)]

/-- Claim C1 witness: entering 5, the division operator and a decimal point
reaches a non-error state whose pending division by an input reading zero is
non-finite, and pressing a further operator lands in the error state; the
same state one step earlier errors on equals. -/
theorem claim_C1_witness :
    selectOperator "+" ⟨some (JSNum.num 5), none, some "/", chars "0.", false, false⟩
      = ⟨none, none, none, chars "Error", false, true⟩ ∧
    calculateResult ⟨some (JSNum.num 5), none, some "/", chars "0", false, false⟩
      = ⟨none, none, none, chars "Error", false, true⟩ :=
  ⟨claim_C1.1 none false (chars "0.") (JSNum.num 5) "/" "+"
      (by decide) (by decide) (by with_unfolding_all decide),
   claim_C1.2 none false (chars "0") (JSNum.num 5) "/"
      (by decide) (by with_unfolding_all decide)⟩

/-- Claim C2 counterexample: the claim says addDecimalPoint leaves an error
state unchanged, but the decimal point resets the error state and produces
the fresh input 0 followed by a point: after 5, divide, equals the state is
the error state, and one decimal-point press escapes it. -/
theorem claim_C2_counterexample :
    run [Cmd.digit 5, Cmd.binop Op.divOp, Cmd.equals]
        = ⟨none, none, none, chars "Error", false, true⟩ ∧
    addDecimalPoint ⟨none, none, none, chars "Error", false, true⟩
        = ⟨none, none, none, chars "0.", false, false⟩ ∧
    (⟨none, none, none, chars "0.", false, false⟩ : CalculatorState)
        ≠ ⟨none, none, none, chars "Error", false, true⟩ := by
  refine ⟨?_, ?_, ?_⟩ <;> with_unfolding_all decide

/-- Claim C2 as amended: in an error state, toggleSign, removeLastCharacter,
selectOperator and calculateResult are no-ops; appendDigit and
addDecimalPoint perform an implicit clear followed by the edit; and
clearCalculator resets to the initial state. -/
theorem claim_C2_amended :
    ∀ s : CalculatorState, checkErrorState s = true →
      toggleSign s = s ∧ removeLastCharacter s = s ∧
      (∀ op : String, selectOperator op s = s) ∧ calculateResult s = s ∧
      (∀ d : List Char, appendDigit d s = appendDigit d initialState) ∧
      addDecimalPoint s = addDecimalPoint initialState ∧
      clearCalculator s = initialState := by
  intro s h
  have hr : resetStateForNewInput s = initialState := by
    rw [resetStateForNewInput, if_pos (by rw [h]; rfl)]
    rfl
  have hr2 : resetStateForNewInput initialState = initialState := rfl
  refine ⟨?_, ?_, ?_, ?_, ?_, ?_, rfl⟩
  · rw [toggleSign, if_pos h]
  · rw [removeLastCharacter, if_pos h]
  · intro op; rw [selectOperator, if_pos h]
  · rw [calculateResult, if_pos h]
  · intro d; simp only [appendDigit, hr, hr2]
  · simp only [addDecimalPoint, hr, hr2]

/-- Claim C2 witness: the amended statement applied to the concrete error
state. -/
theorem claim_C2_witness :
    toggleSign ⟨none, none, none, chars "Error", false, true⟩
      = ⟨none, none, none, chars "Error", false, true⟩ :=
  (claim_C2_amended ⟨none, none, none, chars "Error", false, true⟩ (by decide)).1

/-- Claim C3: after digit 5, operator plus, digit 3 and one equals, every
further equals press reuses the stored secondOperand 3 and adds it to
firstOperand; the state after the N-plus-first equals holds firstOperand
5 plus 3 times N plus 1, secondOperand 3, the pending plus operator, the
formatted display of that value, and the displays of the first three equals
presses are 8, 11 and 14. -/
theorem claim_C3 :
    (∀ N : ℕ, run (equalsSeq (N + 1))
        = ⟨some (JSNum.num (5 + 3 * ((N : ℚ) + 1))), some (JSNum.num 3), some "+",
           formatDisplayNumber (JSNum.num (5 + 3 * ((N : ℚ) + 1))), true, false⟩) ∧
    (run (equalsSeq 1)).currentInput = chars "8" ∧
    (run (equalsSeq 2)).currentInput = chars "11" ∧
    (run (equalsSeq 3)).currentInput = chars "14" := by
  refine ⟨run_equalsSeq, ?_, ?_, ?_⟩ <;> with_unfolding_all decide

/-- Claim C4 counterexample: after 5 minus 5 equals, an operator and a
firstOperand are pending and currentInput is the string 0, yet pressing an
operator does not only replace the operator: it also clears hasCalculated
and secondOperand. -/
theorem claim_C4_counterexample :
    (run [Cmd.digit 5, Cmd.binop Op.subOp, Cmd.digit 5, Cmd.equals]).currentInput
        = chars "0" ∧
    (run [Cmd.digit 5, Cmd.binop Op.subOp, Cmd.digit 5, Cmd.equals]).firstOperand
        = some (JSNum.num 0) ∧
    (run [Cmd.digit 5, Cmd.binop Op.subOp, Cmd.digit 5, Cmd.equals]).operator = some "-" ∧
    (run [Cmd.digit 5, Cmd.binop Op.subOp, Cmd.digit 5, Cmd.equals]).hasCalculated = true ∧
    (run [Cmd.digit 5, Cmd.binop Op.subOp, Cmd.digit 5, Cmd.equals]).secondOperand
        = some (JSNum.num 5) ∧
    (selectOperator "+" (run [Cmd.digit 5, Cmd.binop Op.subOp, Cmd.digit 5,
        Cmd.equals])).hasCalculated = false ∧
    (selectOperator "+" (run [Cmd.digit 5, Cmd.binop Op.subOp, Cmd.digit 5,
        Cmd.equals])).secondOperand = none := by
  refine ⟨?_, ?_, ?_, ?_, ?_, ?_, ?_⟩ <;> with_unfolding_all decide

/-- Claim C4 as amended: with an operator and firstOperand pending and not in
error, an operator press with currentInput different from the string 0
computes the pending operation and, when the result is finite, stores it as
firstOperand, installs the new operator, resets currentInput to 0, and clears
secondOperand and hasCalculated; with currentInput equal to the string 0 it
replaces the pending operator and clears hasCalculated (and, when coming from
a post-equals state, secondOperand), changing nothing else. The sequence
1 plus 2 plus 3 equals displays 6. -/
theorem claim_C4_amended :
    (∀ (sO : Option JSNum) (hC : Bool) (ci : List Char) (a : JSNum) (o op2 : String)
       (r : ℚ),
      ci ≠ chars "Error" → ci ≠ chars "0" →
      performCalculation a o
          (getCurrentInputAsNumber ⟨some a, sO, some o, ci, hC, false⟩) = JSNum.num r →
      selectOperator op2 ⟨some a, sO, some o, ci, hC, false⟩
        = ⟨some (JSNum.num r), none, some op2, chars "0", false, false⟩) ∧
    (∀ (sO : Option JSNum) (hC : Bool) (a : JSNum) (o op2 : String),
      selectOperator op2 ⟨some a, sO, some o, chars "0", hC, false⟩
        = ⟨some a, (if hC then none else sO), some op2, chars "0", false, false⟩) ∧
    (run [Cmd.digit 1, Cmd.binop Op.addOp, Cmd.digit 2, Cmd.binop Op.addOp, Cmd.digit 3,
          Cmd.equals]).currentInput = chars "6" := by
  refine ⟨?_, ?_, by with_unfolding_all decide⟩
  · intro sO hC ci a o op2 r hciE hci0 hres
    cases hC <;>
      · rw [selectOperator, if_neg (by simp [checkErrorState, hciE])]
        show (if ci ≠ chars "0" then _ else _) = _
        rw [if_pos hci0]
        show (if (performCalculation a o
            (getCurrentInputAsNumber ⟨some a, sO, some o, ci, _, false⟩)).isFinite = true
          then _ else _) = _
        rw [if_pos (by rw [hres]; rfl)]
        rw [hres]
        rfl
  · intro sO hC a o op2
    cases hC <;>
      · rw [selectOperator, if_neg (by simp [checkErrorState]; decide)]
        show (if chars "0" ≠ chars "0" then _ else _) = _
        rw [if_neg (by simp)]
        rfl

/-- Claim C4 witness: the amended chain case at a concrete state, computing 1
plus 2 on the second operator press. -/
theorem claim_C4_witness :
    selectOperator "+" ⟨some (JSNum.num 1), none, some "+", chars "2", false, false⟩
      = ⟨some (JSNum.num 3), none, some "+", chars "0", false, false⟩ :=
  claim_C4_amended.1 none false (chars "2") (JSNum.num 1) "+" "+" 3
    (by decide) (by decide) (by with_unfolding_all decide)

/-- Claim C5 counterexample: the claim asserts that with a nonzero dividend,
pending division and a current input reading zero, a further operator press
puts the machine in the Error state; but when currentInput is exactly the
string 0 the operator press merely replaces the pending operator and no error
occurs. -/
theorem claim_C5_counterexample :
    (run [Cmd.digit 5, Cmd.binop Op.divOp]).firstOperand = some (JSNum.num 5) ∧
    (run [Cmd.digit 5, Cmd.binop Op.divOp]).operator = some "/" ∧
    getCurrentInputAsNumber (run [Cmd.digit 5, Cmd.binop Op.divOp]) = JSNum.num 0 ∧
    (selectOperator "*" (run [Cmd.digit 5, Cmd.binop Op.divOp])).isError = false ∧
    (selectOperator "*" (run [Cmd.digit 5, Cmd.binop Op.divOp])).currentInput
        ≠ chars "Error" := by
  refine ⟨?_, ?_, ?_, ?_, ?_⟩ <;> with_unfolding_all decide

/-- Claim C5 as amended: performCalculation with operator slash and second
operand zero is NaN for every first operand and never throws; with a nonzero
dividend and pending division, pressing Equals puts the machine in the Error
state whenever the right-hand operand it uses reads as zero (with
hasCalculated false that operand is the current input; under repeated equals
it is the stored secondOperand); a further operator press with the current
input reading as zero puts the machine in the Error state when currentInput
is not the string 0, and merely replaces the pending operator without
erroring when currentInput is the string 0. -/
theorem claim_C5_amended :
    (∀ a : JSNum, performCalculation a "/" (JSNum.num 0) = JSNum.nan) ∧
    (∀ (sO : Option JSNum) (hC : Bool) (ci : List Char) (a : ℚ),
      a ≠ 0 → ci ≠ chars "Error" →
      (if hC
       then sO.getD (getCurrentInputAsNumber ⟨some (JSNum.num a), sO, some "/", ci, hC, false⟩)
       else getCurrentInputAsNumber ⟨some (JSNum.num a), sO, some "/", ci, hC, false⟩)
          = JSNum.num 0 →
      calculateResult ⟨some (JSNum.num a), sO, some "/", ci, hC, false⟩
        = ⟨none, none, none, chars "Error", hC, true⟩) ∧
    (∀ (sO : Option JSNum) (hC : Bool) (ci : List Char) (a : ℚ) (op2 : String),
      a ≠ 0 → ci ≠ chars "Error" → ci ≠ chars "0" →
      getCurrentInputAsNumber ⟨some (JSNum.num a), sO, some "/", ci, hC, false⟩
          = JSNum.num 0 →
      selectOperator op2 ⟨some (JSNum.num a), sO, some "/", ci, hC, false⟩
        = ⟨none, none, none, chars "Error", false, true⟩) ∧
    (∀ (sO : Option JSNum) (hC : Bool) (a : JSNum) (op2 : String),
      (selectOperator op2 ⟨some a, sO, some "/", chars "0", hC, false⟩).isError = false ∧
      (selectOperator op2 ⟨some a, sO, some "/", chars "0", hC, false⟩).operator
          = some op2) := by
  refine ⟨?_, ?_, ?_, ?_⟩
  · intro a
    cases a <;> rfl
  · intro sO hC ci a ha hciE hinput
    cases hC
    · simp only [Bool.false_eq_true, if_false] at hinput
      rw [calculateResult, if_neg (by simp [checkErrorState, hciE])]
      show (if (performCalculation (JSNum.num a) "/" (getCurrentInputAsNumber
          ⟨some (JSNum.num a), sO, some "/", ci, false, false⟩)).isFinite = true
        then _ else _) = _
      rw [hinput]
      rfl
    · rw [if_pos rfl] at hinput
      rw [calculateResult, if_neg (by simp [checkErrorState, hciE])]
      show (if (performCalculation (JSNum.num a) "/" (sO.getD (getCurrentInputAsNumber
          ⟨some (JSNum.num a), sO, some "/", ci, true, false⟩))).isFinite = true
        then _ else _) = _
      rw [hinput]
      rfl
  · intro sO hC ci a op2 ha hciE hci0 hinput
    cases hC <;>
      · rw [selectOperator, if_neg (by simp [checkErrorState, hciE])]
        show (if ci ≠ chars "0" then _ else _) = _
        rw [if_pos hci0]
        show (if (performCalculation (JSNum.num a) "/" (getCurrentInputAsNumber
            ⟨some (JSNum.num a), sO, some "/", ci, _, false⟩)).isFinite = true
          then _ else _) = _
        rw [hinput]
        rfl
  · intro sO hC a op2
    cases hC <;> exact ⟨rfl, rfl⟩

/-- Claim C5 witness: the amended equals case at the concrete state reached
by digit 5 and the division operator. -/
theorem claim_C5_witness :
    calculateResult ⟨some (JSNum.num 5), none, some "/", chars "0", false, false⟩
      = ⟨none, none, none, chars "Error", false, true⟩ :=
  claim_C5_amended.2.1 none false (chars "0") 5 (by norm_num) (by decide)
    (by with_unfolding_all decide)

/-- Claim C6: in every state reachable from the initial state by any command
sequence, isError is true exactly when currentInput is the Error text. -/
theorem claim_C6 (cmds : List Cmd) :
    (run cmds).isError = true ↔ (run cmds).currentInput = chars "Error" := by
  rcases good_run cmds with ⟨he, hc⟩ | ⟨he, hg⟩
  · rw [he, hc]
    simp
  · rw [he]
    exact iff_of_false (by simp) (goodStr_ne_error hg)

/-- Claim C7 counterexample: dividing 1 by 10000000 (typed as the input
0.0000001 followed by plus and equals) displays the exponential string 1e-7,
which is neither a partial-number string of the claimed grammar nor the Error
text. -/
theorem claim_C7_counterexample :
    (run [Cmd.dot, Cmd.digit 0, Cmd.digit 0, Cmd.digit 0, Cmd.digit 0, Cmd.digit 0,
          Cmd.digit 0, Cmd.digit 1, Cmd.binop Op.addOp, Cmd.equals]).currentInput
        = chars "1e-7" ∧
    validPartialNumber (chars "1e-7") = false ∧
    chars "1e-7" ≠ chars "Error" ∧
    (run [Cmd.dot, Cmd.digit 0, Cmd.digit 0, Cmd.digit 0, Cmd.digit 0, Cmd.digit 0,
          Cmd.digit 0, Cmd.digit 1, Cmd.binop Op.addOp, Cmd.equals]).isError = false := by
  refine ⟨?_, ?_, ?_, ?_⟩ <;> with_unfolding_all decide

/-- Claim C7 as amended: in every reachable state, currentInput is either the
Error text or a nonempty string of the partial-number grammar extended with
the exponential result format: optional leading minus, digits, optional
single point with digits, optionally followed by an exponent part (the letter
e, a sign, and digits), as produced for formatted results such as 1e-7. -/
theorem claim_C7_amended (cmds : List Cmd) :
    (run cmds).currentInput = chars "Error" ∨
      ((run cmds).currentInput ≠ [] ∧
        validDisplayNumber (run cmds).currentInput = true) := by
  rcases good2_run cmds with ⟨_, hc⟩ | ⟨he, _, hvp⟩ | ⟨he, _, hvd, _, _⟩
  · exact Or.inl hc
  · rcases good_run cmds with ⟨he2, _⟩ | ⟨_, hg⟩
    · rw [he] at he2; exact absurd he2 Bool.false_ne_true
    · exact Or.inr ⟨hg.1, vp_display _ hvp⟩
  · rcases good_run cmds with ⟨he2, _⟩ | ⟨_, hg⟩
    · rw [he] at he2; exact absurd he2 Bool.false_ne_true
    · exact Or.inr ⟨hg.1, hvd⟩

theorem toggleSign_involutive {s : CalculatorState} (h : Good s)
    (h1 : s.currentInput ≠ chars "-0") (h2 : s.currentInput ≠ chars "-0.") :
    toggleSign (toggleSign s) = s := by
  obtain ⟨f1, f2, f3, ci, b1, b2⟩ := s
  rcases h with ⟨he, hc⟩ | ⟨he, hg⟩
  · have hch : checkErrorState ⟨f1, f2, f3, ci, b1, b2⟩ = true := by
      simp [checkErrorState]
      exact Or.inl he
    have hT : toggleSign ⟨f1, f2, f3, ci, b1, b2⟩ = ⟨f1, f2, f3, ci, b1, b2⟩ := by
      rw [toggleSign, if_pos hch]
    rw [hT, hT]
  · have hch : checkErrorState ⟨f1, f2, f3, ci, b1, b2⟩ = false :=
      checkErrorState_false he hg
    by_cases h0 : ci = chars "0" ∨ ci = chars "0."
    · have hT : toggleSign ⟨f1, f2, f3, ci, b1, b2⟩ = ⟨f1, f2, f3, ci, b1, b2⟩ := by
        rw [toggleSign, if_neg (by rw [hch]; simp), if_pos h0]
      rw [hT, hT]
    · obtain ⟨a, t, rfl⟩ := List.exists_cons_of_ne_nil hg.1
      by_cases ha : a = '-'
      · subst ha
        have ht_ne : t ≠ [] := by
          intro h'
          subst h'
          exact hg.2.1 rfl
        obtain ⟨b, t2, rfl⟩ := List.exists_cons_of_ne_nil ht_ne
        have hb : b ≠ '-' := by
          have hdd := hg.2.2.2
          rw [noDD_cons_cons] at hdd
          intro h'
          subst h'
          simp at hdd
        have hgt : GoodStr (b :: t2) := goodStr_drop_dash hg
        have hT1 : toggleSign ⟨f1, f2, f3, '-' :: b :: t2, b1, b2⟩
            = ⟨f1, f2, f3, b :: t2, b1, b2⟩ := by
          rw [toggleSign]
          dsimp only
          rw [if_neg (by rw [hch]; simp), if_neg h0,
              if_pos (show startsWithDash ('-' :: b :: t2) = true from rfl)]
          rfl
        have hch2 : checkErrorState ⟨f1, f2, f3, b :: t2, b1, b2⟩ = false :=
          checkErrorState_false he hgt
        have h02 : ¬(b :: t2 = chars "0" ∨ b :: t2 = chars "0.") := by
          rintro (h' | h')
          · have h1b : '-' :: b :: t2 ≠ chars "-0" := h1
            exact h1b (by rw [h']; decide)
          · have h2b : '-' :: b :: t2 ≠ chars "-0." := h2
            exact h2b (by rw [h']; decide)
        have hT2 : toggleSign ⟨f1, f2, f3, b :: t2, b1, b2⟩
            = ⟨f1, f2, f3, '-' :: b :: t2, b1, b2⟩ := by
          rw [toggleSign]
          dsimp only
          rw [if_neg (by rw [hch2]; simp), if_neg h02,
              if_neg (by rw [show startsWithDash (b :: t2) = (b == '-') from rfl]; simp [hb])]
        rw [hT1, hT2]
      · have hsw : startsWithDash (a :: t) = false := by
          rw [show startsWithDash (a :: t) = (a == '-') from rfl]
          simp [ha]
        have hT1 : toggleSign ⟨f1, f2, f3, a :: t, b1, b2⟩
            = ⟨f1, f2, f3, '-' :: a :: t, b1, b2⟩ := by
          rw [toggleSign]
          dsimp only
          rw [if_neg (by rw [hch]; simp), if_neg h0, if_neg (by rw [hsw]; simp)]
        have hgd : GoodStr ('-' :: a :: t) := goodStr_cons_dash hg hsw
        have hch2 : checkErrorState ⟨f1, f2, f3, '-' :: a :: t, b1, b2⟩ = false :=
          checkErrorState_false he hgd
        have h02 : ¬('-' :: a :: t = chars "0" ∨ '-' :: a :: t = chars "0.") := by
          rintro (h' | h') <;> simp [chars] at h'
        have hT2 : toggleSign ⟨f1, f2, f3, '-' :: a :: t, b1, b2⟩
            = ⟨f1, f2, f3, a :: t, b1, b2⟩ := by
          rw [toggleSign]
          dsimp only
          rw [if_neg (by rw [hch2]; simp), if_neg h02,
              if_pos (show startsWithDash ('-' :: a :: t) = true from rfl)]
          rfl
        rw [hT1, hT2]

/-- Claim C8 counterexample: backspacing the reachable input -0.5 twice
leaves the input -0, on which toggleSign is not an involution: the first
press gives 0 and the second press is a no-op. -/
theorem claim_C8_counterexample :
    (run [Cmd.dot, Cmd.digit 5, Cmd.sign, Cmd.backspace, Cmd.backspace]).currentInput
        = chars "-0" ∧
    toggleSign (toggleSign (run [Cmd.dot, Cmd.digit 5, Cmd.sign, Cmd.backspace,
        Cmd.backspace]))
      ≠ run [Cmd.dot, Cmd.digit 5, Cmd.sign, Cmd.backspace, Cmd.backspace] := by
  refine ⟨?_, ?_⟩ <;> with_unfolding_all decide

/-- Claim C8 as amended: for every reachable state whose currentInput is
neither -0 nor -0. (the two inputs whose sign toggle lands on the 0 and 0.
guard), applying toggleSign twice returns the state to exactly its prior
value. -/
theorem claim_C8_amended (cmds : List Cmd)
    (h1 : (run cmds).currentInput ≠ chars "-0")
    (h2 : (run cmds).currentInput ≠ chars "-0.") :
    toggleSign (toggleSign (run cmds)) = run cmds :=
  toggleSign_involutive (good_run cmds) h1 h2

/-- Claim C8 witness: the amended statement at the single digit 5, whose sign
toggles to -5 and back to 5. -/
theorem claim_C8_witness :
    toggleSign (toggleSign (run [Cmd.digit 5])) = run [Cmd.digit 5] :=
  claim_C8_amended [Cmd.digit 5] (by with_unfolding_all decide)
    (by with_unfolding_all decide)

/-- Claim C9 counterexample: the finite result 1000 divided by 3, produced by
an actual calculation, displays with 12 decimal places (15 significant
digits), not rounded to 12 significant decimal digits. -/
theorem claim_C9_counterexample :
    (run [Cmd.digit 1, Cmd.digit 0, Cmd.digit 0, Cmd.digit 0, Cmd.binop Op.divOp,
          Cmd.digit 3, Cmd.equals]).currentInput
        = formatDisplayNumber (JSNum.num (1000 / 3)) ∧
    formatDisplayNumber (JSNum.num (1000 / 3)) = chars "333.333333333333" ∧
    specSigDisplay (1000 / 3) = chars "333.333333333" ∧
    formatDisplayNumber (JSNum.num (1000 / 3)) ≠ specSigDisplay (1000 / 3) := by
  refine ⟨?_, ?_, ?_, ?_⟩ <;> with_unfolding_all decide

/-- Claim C9 as amended: a non-finite value formats as the Error text, and
every finite value formats as the canonical decimal string of the value
rounded to 12 decimal places, half up, after adding Number.EPSILON. -/
theorem claim_C9_amended :
    formatDisplayNumber JSNum.nan = chars "Error" ∧
    ∀ q : ℚ, formatDisplayNumber (JSNum.num q) = specDecimalDisplay q :=
  ⟨rfl, fun _ => rfl⟩

/-- Claim C10: toggleSign only ever rewrites currentInput: firstOperand,
secondOperand, operator, hasCalculated and isError are untouched in every
state, post-equals states included; consequently after 5 plus 3 equals, sign,
equals, the final computation uses the stored un-negated firstOperand 8 and
displays 11, ignoring the sign toggle that showed -8. -/
theorem claim_C10 :
    (∀ s : CalculatorState,
      (toggleSign s).firstOperand = s.firstOperand ∧
      (toggleSign s).secondOperand = s.secondOperand ∧
      (toggleSign s).operator = s.operator ∧
      (toggleSign s).hasCalculated = s.hasCalculated ∧
      (toggleSign s).isError = s.isError) ∧
    (run [Cmd.digit 5, Cmd.binop Op.addOp, Cmd.digit 3, Cmd.equals, Cmd.sign]).currentInput
        = chars "-8" ∧
    (run [Cmd.digit 5, Cmd.binop Op.addOp, Cmd.digit 3, Cmd.equals,
          Cmd.sign]).hasCalculated = true ∧
    (run [Cmd.digit 5, Cmd.binop Op.addOp, Cmd.digit 3, Cmd.equals, Cmd.sign,
          Cmd.equals]).currentInput = chars "11" ∧
    (run [Cmd.digit 5, Cmd.binop Op.addOp, Cmd.digit 3, Cmd.equals, Cmd.sign,
          Cmd.equals]).firstOperand = some (JSNum.num 11) := by
  refine ⟨?_, ?_, ?_, ?_, ?_⟩
  · intro s
    rw [toggleSign]
    split
    · exact ⟨rfl, rfl, rfl, rfl, rfl⟩
    · split
      · exact ⟨rfl, rfl, rfl, rfl, rfl⟩
      · split
        · exact ⟨rfl, rfl, rfl, rfl, rfl⟩
        · exact ⟨rfl, rfl, rfl, rfl, rfl⟩
  all_goals with_unfolding_all decide

end Calculator
